import Mathlib

/-!
# Candidate Queue & Hex-Allocation Engine: a shallow embedding

This file embeds the core data model and operations of the PrayReps
prayer-candidate engine and proves (or refutes) the specified properties.

The embedding follows the source:
* `project/database.py` — the `prayer_candidates` table and its unique index;
* `project/data_initializer.py`, `_seed_initial_prayer_queue` — initial seeding;
* `app.py`, `update_queue` — the administrative reseed;
* `project/services/prayer_service.py` — `mark_representative_as_prayed`,
  `put_representative_back_in_queue`, `get_available_hex_id_for_country`,
  `get_queued_representatives`;
* `project/blueprints/prayer.py` — `put_back_htmx`.

Randomness (`random.shuffle`, `DataFrame.sample`) is modelled as an injected
source of list transformations (`RandSrc`); theorems assume the shuffles are
permutations, which the real shuffles are.  Timestamps are abstract naturals.
-/

/-- Candidate lifecycle status: the `status` column holds `'queued'` or `'prayed'`. -/
inductive Status where
  | queued
  | prayed
deriving DecidableEq, Repr

/-- One row of the `prayer_candidates` table (schema in `database.py`,
`init_db_schema`).  `post_label`, `party`, `thumbnail`, `hex_id` are nullable
(`Option`); timestamps are abstract naturals. -/
structure Candidate where
  id : Nat
  person_name : String
  post_label : Option String
  country_code : String
  party : Option String
  thumbnail : Option String
  status : Status
  status_timestamp : Nat
  initial_add_timestamp : Nat
  hex_id : Option String
deriving DecidableEq, Repr

/-- The relational store: the `prayer_candidates` rows in insertion order plus
the next value of the autoincrement surrogate key. -/
structure DB where
  rows : List Candidate
  nextId : Nat
deriving DecidableEq, Repr

/-- A fresh database (sqlite AUTOINCREMENT starts at 1). -/
def dbEmpty : DB := ⟨[], 1⟩

/-- Normalization used when reading `post_label` back from the database for
natural-key comparison: `record['post_label'] if ... is not None else ""`. -/
def normLabel : Option String → String
  | none => ""
  | some s => s

/-- A natural-key tuple `(person_name, post_label, country_code)` as used for
the already-prayed set. -/
abbrev Key := String × String × String

/-- The normalized natural key of a stored row. -/
def candKey (c : Candidate) : Key :=
  (c.person_name, normLabel c.post_label, c.country_code)

/-- Snapshot of the natural keys of every `prayed` row, with `post_label`
normalized to `""` when NULL — the `already_prayed` set built at the start of
both seeding passes. -/
def prayedKeys (db : DB) : List Key :=
  (db.rows.filter fun c => decide (c.status = Status.prayed)).map candKey

/-- Number of rows with `status = 'queued'`
(`SELECT COUNT(id) FROM prayer_candidates WHERE status = 'queued'`). -/
def queuedCount (db : DB) : Nat :=
  db.rows.countP fun c => decide (c.status = Status.queued)

/-- `True` iff a stored row would make the unique index
`idx_candidates_unique ON (person_name, post_label, country_code)` reject an
insert carrying the given values.  SQL unique indexes treat NULLs as distinct,
so a conflict requires both `post_label`s to be non-NULL and equal. -/
def indexConflict (pn : String) (pl : Option String) (cc : String)
    (c : Candidate) : Bool :=
  decide (c.person_name = pn) && decide (c.country_code = cc) &&
    (match pl, c.post_label with
     | some a, some b => decide (a = b)
     | _, _ => false)

/-- `INSERT OR IGNORE INTO prayer_candidates ...`: inserts the row with a
fresh surrogate id unless the unique index fires, and reports the affected-row
count (1 or 0). -/
def DB.insertOrIgnore (db : DB) (c : Candidate) : DB × Nat :=
  if db.rows.any (indexConflict c.person_name c.post_label c.country_code) then
    (db, 0)
  else
    (⟨db.rows ++ [{ c with id := db.nextId }], db.nextId + 1⟩, 1)

/-- `DELETE FROM prayer_candidates WHERE status = 'queued'` (app.py line 503). -/
def deleteQueued (db : DB) : DB :=
  ⟨db.rows.filter fun c => decide (c.status ≠ Status.queued), db.nextId⟩

/-- One record of a country roster CSV after `pd.read_csv` and
`df.replace({np.nan: None})`: each field is a string or `None`. -/
structure RosterRow where
  person_name : Option String
  post_label : Option String
  party : Option String
  image_url : Option String
deriving DecidableEq, Repr

/-- An in-memory candidate built from a roster row during a seeding pass
(the dict appended to `all_potential_candidates`). -/
structure Item where
  person_name : String
  post_label : Option String
  country_code : String
  party : Option String
  thumbnail : Option String
deriving DecidableEq, Repr

/-- One configured country: its code, the optional `total_representatives`
cap, and its roster rows (`fetch_csv` result; `[]` models a missing or empty
CSV). -/
structure CountrySpec where
  code : String
  cap : Option Nat
  roster : List RosterRow
deriving Repr

/-- Injected randomness: the observable effect of `DataFrame.sample(frac=1)`,
`random.shuffle` on the candidate list, `random.shuffle` on hex-id lists, and
`DataFrame.sample(n)`. -/
structure RandSrc where
  shuffleRows : List RosterRow → List RosterRow
  shuffleItems : List Item → List Item
  shuffleHexes : List String → List String
  sampleRows : Nat → List RosterRow → List RosterRow

/-- What the real random sources guarantee: shuffles permute their input. -/
def GoodRand (R : RandSrc) : Prop :=
  (∀ l, (R.shuffleItems l).Perm l) ∧ (∀ l, (R.shuffleHexes l).Perm l)

/-- A degenerate random source (identity shuffles, prefix sampling), used to
evaluate the operations on concrete inputs. -/
def idRand : RandSrc :=
  ⟨id, id, id, fun n l => l.take n⟩

/-- Normalization of a raw CSV `post_label` for comparison against the
`already_prayed` keys: `None` and blank/whitespace-only strings compare as
`""`, anything else is kept verbatim (unstripped). -/
def postLabelForCheck : Option String → String
  | none => ""
  | some s => if s.trim = "" then "" else s

/-- Normalization of a raw CSV `post_label` for storage: `None` and
blank/whitespace-only strings are stored as NULL, anything else verbatim. -/
def storedPostLabel : Option String → Option String
  | none => none
  | some s => if s.trim = "" then none else some s

/-- The per-country sampling step shared by both seeding passes: with no cap,
or a roster no larger than the cap, shuffle the whole roster
(`df.sample(frac=1)`); otherwise draw a uniform sample of `cap` rows
(`df.sample(n=cap)`). -/
def sampleCountry (R : RandSrc) (cap : Option Nat) (rows : List RosterRow) :
    List RosterRow :=
  match cap with
  | none => R.shuffleRows rows
  | some n => if rows.length ≤ n then R.shuffleRows rows else R.sampleRows n rows

/-- The per-row collection loop of `_seed_initial_prayer_queue`
(data_initializer.py lines 277-308): skip rows with a falsy `person_name` or a
natural key in the already-prayed snapshot; default `party` via
`item.get('party', 'Other')` (`none` models an absent value); normalize
`post_label` for storage; `thumbnail` is the raw `image_url`. -/
def seedCollectCountry (prayed : List Key) (cc : String)
    (rows : List RosterRow) : List Item :=
  rows.filterMap fun r =>
    match r.person_name with
    | none => none
    | some nm =>
      if nm = "" then none
      else if (nm, postLabelForCheck r.post_label, cc) ∈ prayed then none
      else some { person_name := nm
                  post_label := storedPostLabel r.post_label
                  country_code := cc
                  party := some (r.party.getD "Other")
                  thumbnail := r.image_url }

/-- Fallback thumbnail used by `update_queue` (`HEART_IMG_PATH` in app.py). -/
def heartImgPath : String := "heart.png"

/-- The per-row collection loop of `update_queue` (app.py lines 562-601): the
same filtering as `seedCollectCountry`, but `party` defaults through a falsy
check (`if not item.get('party')`) and an empty-or-missing `image_url` falls
back to the heart image. -/
def updateQueueCollectCountry (prayed : List Key) (cc : String)
    (rows : List RosterRow) : List Item :=
  rows.filterMap fun r =>
    match r.person_name with
    | none => none
    | some nm =>
      if nm = "" then none
      else if (nm, postLabelForCheck r.post_label, cc) ∈ prayed then none
      else some { person_name := nm
                  post_label := storedPostLabel r.post_label
                  country_code := cc
                  party := some (match r.party with
                                 | none => "Other"
                                 | some p => if p = "" then "Other" else p)
                  thumbnail := some (match r.image_url with
                                     | none => heartImgPath
                                     | some u => if u = "" then heartImgPath else u) }

/-- The static map geometry: for each country code the list of hex-cell ids of
its map GeoDataFrame (`hex_map_data_store`); a missing entry models a missing
map or missing `id` column. -/
abbrev HexMaps := List (String × List String)

/-- The hex ids currently in use for a country:
`SELECT hex_id FROM prayer_candidates WHERE country_code = ? AND hex_id IS NOT
NULL AND (status = 'prayed' OR status = 'queued')`, optionally with
`AND id != ?` — the exclusion clause is only added when `exclude_candidate_id`
is truthy, so `some 0` adds no clause. -/
def usedHexIdsExcl (db : DB) (cc : String) (excl : Option Nat) : List String :=
  db.rows.filterMap fun c =>
    match c.hex_id with
    | none => none
    | some h =>
      if decide (c.country_code = cc) &&
         (decide (c.status = Status.prayed) || decide (c.status = Status.queued)) &&
         (match excl with
          | none => true
          | some e => if e = 0 then true else decide (c.id ≠ e)) then
        some h
      else none

/-- The shuffled list of available hex ids for one country computed at the
start of a seeding pass: `list(set(all_map_hex_ids) - set(used_hex_ids))`,
shuffled; `[]` when the country has no usable map data. -/
def availableHexesFor (R : RandSrc) (maps : HexMaps) (db : DB) (cc : String) :
    List String :=
  match maps.find? fun p => decide (p.1 = cc) with
  | none => []
  | some p =>
      R.shuffleHexes (p.2.dedup.filter fun h => !((usedHexIdsExcl db cc none).contains h))

/-- The hard-coded list of countries using random geographic allocation
(`random_allocation_countries = ['israel', 'iran']`). -/
def randomAllocationCountries : List String := ["israel", "iran"]

/-- The `available_hex_ids_by_country` dict prepared by a seeding pass: one
entry per random-allocation country. -/
structure AvailMap where
  israel : List String
  iran : List String
deriving Repr

/-- Dictionary lookup on the prepared availability lists; unknown countries
read as the falsy `None`/empty value. -/
def AvailMap.get (a : AvailMap) (cc : String) : List String :=
  if cc = "israel" then a.israel else if cc = "iran" then a.iran else []

/-- Write back a country's remaining availability list after a pop. -/
def AvailMap.set (a : AvailMap) (cc : String) (l : List String) : AvailMap :=
  if cc = "israel" then { a with israel := l }
  else if cc = "iran" then { a with iran := l }
  else a

/-- Python `list.pop()`: remove and return the last element. -/
def popLast : List String → Option (String × List String)
  | [] => none
  | [x] => some (x, [])
  | x :: y :: rest =>
    match popLast (y :: rest) with
    | some (h, t) => some (h, x :: t)
    | none => none

/-- The hex-assignment loop of a seeding pass: each candidate of a
random-allocation country pops one id off that country's remaining local
availability list (if any remain), all others get NULL. -/
def assignHexes (a : AvailMap) : List Item → List (Item × Option String)
  | [] => []
  | i :: rest =>
    if i.country_code ∈ randomAllocationCountries then
      match popLast (a.get i.country_code) with
      | some (h, t) => (i, some h) :: assignHexes (a.set i.country_code t) rest
      | none => (i, none) :: assignHexes a rest
    else (i, none) :: assignHexes a rest

/-- The row inserted by `_seed_initial_prayer_queue` (data_initializer.py
lines 350-355): status `'queued'`, both timestamps set to now. -/
def mkSeedRow (i : Item) (hex : Option String) (now : Nat) : Candidate :=
  { id := 0
    person_name := i.person_name
    post_label := i.post_label
    country_code := i.country_code
    party := i.party
    thumbnail := i.thumbnail
    status := Status.queued
    status_timestamp := now
    initial_add_timestamp := now
    hex_id := hex }

/-- The row inserted by `update_queue` (app.py lines 664-668):
`post_label if post_label else None` maps a falsy label to NULL, and
`initial_add_timestamp` is left to its `CURRENT_TIMESTAMP` default. -/
def mkUpdateRow (i : Item) (hex : Option String) (now : Nat) : Candidate :=
  { id := 0
    person_name := i.person_name
    post_label := match i.post_label with
                  | none => none
                  | some s => if s = "" then none else some s
    country_code := i.country_code
    party := i.party
    thumbnail := i.thumbnail
    status := Status.queued
    status_timestamp := now
    initial_add_timestamp := now
    hex_id := hex }

/-- The insertion loop of a seeding pass: `INSERT OR IGNORE` each candidate
with its assigned hex id, counting successful insertions. -/
def insertItemsWith (mk : Item → Option String → Nat → Candidate) :
    DB → List (Item × Option String) → Nat → DB × Nat
  | db, [], _ => (db, 0)
  | db, p :: rest, now =>
    let r := db.insertOrIgnore (mk p.1 p.2 now)
    let r2 := insertItemsWith mk r.1 rest now
    (r2.1, r.2 + r2.2)

/-- `_seed_initial_prayer_queue` (data_initializer.py): if any `queued` rows
exist the pass is skipped entirely; otherwise snapshot the prayed keys, sample
and collect each country's roster, shuffle the combined list, prepare each
random-allocation country's availability list from the current table, assign
hex ids and insert.  Returns the new state and the inserted-row count. -/
def seedInitialPrayerQueue (R : RandSrc) (maps : HexMaps)
    (countries : List CountrySpec) (db : DB) (now : Nat) : DB × Nat :=
  if 0 < queuedCount db then (db, 0)
  else
    let prayed := prayedKeys db
    let items := (countries.map fun cs =>
      if cs.roster.isEmpty then []
      else seedCollectCountry prayed cs.code (sampleCountry R cs.cap cs.roster)).flatten
    let shuffled := R.shuffleItems items
    let avail : AvailMap :=
      ⟨availableHexesFor R maps db "israel", availableHexesFor R maps db "iran"⟩
    insertItemsWith mkSeedRow db (assignHexes avail shuffled) now

/-- The availability preparation of `update_queue`, which additionally skips a
random-allocation country absent from `COUNTRIES_CONFIG`
(app.py lines 614-636). -/
def availMapPrepUQ (R : RandSrc) (maps : HexMaps) (db : DB)
    (codes : List String) : AvailMap :=
  ⟨if "israel" ∈ codes then availableHexesFor R maps db "israel" else [],
   if "iran" ∈ codes then availableHexesFor R maps db "iran" else []⟩

/-- Everything `update_queue` does after its separately committed delete:
snapshot prayed keys, collect, shuffle, prepare availability, assign hexes and
insert (app.py lines 529-679). -/
def updateQueueInsertPhase (R : RandSrc) (maps : HexMaps)
    (countries : List CountrySpec) (db1 : DB) (now : Nat) : DB × Nat :=
  let prayed := prayedKeys db1
  let items := (countries.map fun cs =>
    if cs.roster.isEmpty then []
    else updateQueueCollectCountry prayed cs.code (sampleCountry R cs.cap cs.roster)).flatten
  let shuffled := R.shuffleItems items
  let avail := availMapPrepUQ R maps db1 (countries.map fun cs => cs.code)
  insertItemsWith mkUpdateRow db1 (assignHexes avail shuffled) now

/-- The full effect of one `update_queue` run (app.py): delete all queued
rows, then run the insert phase against the resulting state. -/
def updateQueueResult (R : RandSrc) (maps : HexMaps)
    (countries : List CountrySpec) (db : DB) (now : Nat) : DB × Nat :=
  updateQueueInsertPhase R maps countries (deleteQueued db) now

/-- The sequence of database states committed by one `update_queue` run: the
delete is committed on its own (app.py line 509, `conn.commit()` right after
the `DELETE`), and the insert batch is committed separately at the end, and
only when at least one row was inserted (line 675). -/
def updateQueueCommits (R : RandSrc) (maps : HexMaps)
    (countries : List CountrySpec) (db : DB) (now : Nat) : List DB :=
  let db1 := deleteQueued db
  let r := updateQueueInsertPhase R maps countries db1 now
  if 0 < r.2 then [db1, r.1] else [db1]

/-- The committed state visible when an unexpected error interrupts
`update_queue` anywhere after the delete commit: the `except` handler's
`conn.rollback()` (app.py line 692) can only undo the uncommitted inserts, not
the already-committed delete. -/
def updateQueueAfterErrorState (db : DB) : DB := deleteQueued db

/-- The row transformation of the conditional update
`UPDATE prayer_candidates SET status = 'prayed', status_timestamp = ?
WHERE id = ? AND status = 'queued'` — run identically by
`mark_representative_as_prayed` (prayer_service.py lines 194-201) and by the
`/process_item` route (app.py lines 961-965). -/
def markPrayedRowUpdate (cid now : Nat) (c : Candidate) : Candidate :=
  if c.id = cid ∧ c.status = Status.queued then
    { c with status := Status.prayed, status_timestamp := now }
  else c

/-- The conditional mark-prayed UPDATE: the new table state and the
affected-row count. -/
def markPrayedUpdate (db : DB) (cid now : Nat) : DB × Nat :=
  (⟨db.rows.map (markPrayedRowUpdate cid now), db.nextId⟩,
   db.rows.countP fun c => decide (c.id = cid ∧ c.status = Status.queued))

/-- The value returned by `mark_representative_as_prayed` on success: the dict
read by the initial SELECT, whose `status` entry is then overwritten with
`'prayed'` and which gains an extra `timestamp` entry holding the new
transition time (prayer_service.py lines 209-214). -/
structure PrayedDetails where
  item : Candidate
  timestamp : Nat
deriving DecidableEq, Repr

/-- `mark_representative_as_prayed(candidate_id)` (prayer_service.py): SELECT
the row requiring `status = 'queued'` (not found ⇒ `(None, 0)`), run the
conditional UPDATE, commit when it affected rows, roll back otherwise.
Returns the new state, the returned details and the affected-row count. -/
def markRepresentativeAsPrayed (db : DB) (cid now : Nat) :
    DB × Option PrayedDetails × Nat :=
  match db.rows.find? fun c => decide (c.id = cid ∧ c.status = Status.queued) with
  | none => (db, none, 0)
  | some item =>
    let r := markPrayedUpdate db cid now
    if 0 < r.2 then
      (r.1, some ⟨{ item with status := Status.prayed }, now⟩, r.2)
    else (db, none, 0)

/-- The row transformation of
`UPDATE prayer_candidates SET status = 'queued', status_timestamp = ?,
hex_id = ? WHERE id = ? AND status = 'prayed'`
(prayer_service.py lines 278-285). -/
def putBackRowUpdate (cid now : Nat) (hex : Option String) (c : Candidate) :
    Candidate :=
  if c.id = cid ∧ c.status = Status.prayed then
    { c with status := Status.queued, status_timestamp := now, hex_id := hex }
  else c

/-- `put_representative_back_in_queue(candidate_id, new_hex_id)`
(prayer_service.py): SELECT the row requiring `status = 'prayed'` (not found
⇒ 0 rows), keep its own `hex_id` only when `new_hex_id is None`, run the
conditional UPDATE, commit on success and roll back otherwise. -/
def putRepresentativeBackInQueue (db : DB) (cid : Nat)
    (newHex : Option String) (now : Nat) : DB × Nat :=
  match db.rows.find? fun c => decide (c.id = cid ∧ c.status = Status.prayed) with
  | none => (db, 0)
  | some item =>
    let finalHex := match newHex with
                    | some h => some h
                    | none => item.hex_id
    let n := db.rows.countP fun c => decide (c.id = cid ∧ c.status = Status.prayed)
    if 0 < n then
      (⟨db.rows.map (putBackRowUpdate cid now finalHex), db.nextId⟩, n)
    else (db, 0)

/-- `get_available_hex_id_for_country(country_code, exclude_candidate_id)`
(prayer_service.py lines 319-385): take the country's map cell ids (`None`
when no usable map data), subtract the hex ids in use (excluding one candidate
when the exclude id is truthy), shuffle, and `pop()` the last element; `None`
when nothing is available. -/
def getAvailableHexIdForCountry (R : RandSrc) (maps : HexMaps) (db : DB)
    (cc : String) (excl : Option Nat) : Option String :=
  match maps.find? fun p => decide (p.1 = cc) with
  | none => none
  | some p =>
    let avail := p.2.dedup.filter fun h => !((usedHexIdsExcl db cc excl).contains h)
    if avail.isEmpty then none
    else (R.shuffleHexes avail).getLast?

/-- The `put_back_htmx` route (blueprints/prayer.py lines 144-180): for a
random-allocation country it always queries an available hex id (excluding the
candidate's own hold) and passes the result to
`put_representative_back_in_queue`; there is no way for the caller to decline
reassignment. -/
def putBackHtmx (R : RandSrc) (maps : HexMaps) (db : DB) (cid : Nat)
    (ccForm : String) (now : Nat) : DB × Nat :=
  let newHex := if ccForm ∈ randomAllocationCountries then
                  getAvailableHexIdForCountry R maps db ccForm (some cid)
                else none
  putRepresentativeBackInQueue db cid newHex now

/-- Failure taxonomy of the repository layer (`psycopg2.Error` variants). -/
inductive RepositoryError where
  | connectionFailure
  | transactionAbort
deriving DecidableEq, Repr

/-- A database connection attempt: the table state the statements observe,
and whether statement execution raises a `psycopg2.Error`. -/
structure Conn where
  db : DB
  failure : Option RepositoryError
deriving Repr

/-- Sort rows by ascending surrogate id (`ORDER BY id ASC`). -/
def insertById (c : Candidate) : List Candidate → List Candidate
  | [] => [c]
  | d :: rest => if c.id ≤ d.id then c :: d :: rest else d :: insertById c rest

/-- Insertion sort by id, the ordering of `get_queued_representatives`. -/
def sortById (l : List Candidate) : List Candidate := l.foldr insertById []

/-- `get_queued_representatives` (prayer_service.py lines 74-113) over a
connection that may fail: the `except psycopg2.Error` handler logs the error
and falls through to `return items`, whose initial value `[]` is still in
place — a failure is converted into an ordinary empty-list return, not
re-raised. -/
def getQueuedRepresentativesConn (conn : Conn) : List Candidate :=
  match conn.failure with
  | some _ => []
  | none => sortById (conn.db.rows.filter fun c => decide (c.status = Status.queued))

/-- `mark_representative_as_prayed` (prayer_service.py lines 164-240) over a
connection that may fail: the `except psycopg2.Error` handler rolls the
transaction back (leaving the table as it was) and returns `(None, 0)` — the
same value as the ordinary not-found no-op — instead of re-raising. -/
def markRepresentativeAsPrayedConn (conn : Conn) (cid now : Nat) :
    DB × Option PrayedDetails × Nat :=
  match conn.failure with
  | some _ => (conn.db, none, 0)
  | none => markRepresentativeAsPrayed conn.db cid now

/-- Distinct surrogate ids: what `id INTEGER PRIMARY KEY AUTOINCREMENT`
guarantees. -/
def NoDupIds (db : DB) : Prop := (db.rows.map fun c => c.id).Nodup

/-- Every stored id is below the autoincrement counter. -/
def IdsBounded (db : DB) : Prop := ∀ c ∈ db.rows, c.id < db.nextId

/-- Uniqueness of the natural key as actually enforced by the unique index:
two distinct rows never agree on `(person_name, post_label, country_code)`
with a non-NULL `post_label`. -/
def UniqueNonNullKey (db : DB) : Prop :=
  ∀ c ∈ db.rows, ∀ d ∈ db.rows, c.id ≠ d.id →
    c.person_name = d.person_name → c.country_code = d.country_code →
    c.post_label = d.post_label → c.post_label = none

/-- Hex exclusivity: within one country, no non-null `hex_id` is held by two
distinct candidates whose status is `queued` or `prayed`. -/
def HexExclusive (db : DB) : Prop :=
  ∀ c ∈ db.rows, ∀ d ∈ db.rows, c.id ≠ d.id → c.country_code = d.country_code →
    (c.status = Status.queued ∨ c.status = Status.prayed) →
    (d.status = Status.queued ∨ d.status = Status.prayed) →
    c.hex_id ≠ none → c.hex_id ≠ d.hex_id

/-- The conjunction of structural invariants maintained by every operation. -/
def DBInv (db : DB) : Prop :=
  NoDupIds db ∧ IdsBounded db ∧ UniqueNonNullKey db ∧ HexExclusive db

/-- `h` is safe to hand out in country `cc`: no queued or prayed candidate of
that country currently holds it. -/
def HexFreshFor (db : DB) (cc : String) (h : String) : Prop :=
  ∀ c ∈ db.rows, c.country_code = cc →
    (c.status = Status.queued ∨ c.status = Status.prayed) → c.hex_id ≠ some h

/-- One engine operation against the shared store, as invoked by the web and
administrative layers.  Each constructor embeds one call with arbitrary
configuration, rosters, map data and timestamp; shuffles are required to be
permutations (`GoodRand`), and a put-back request's form `country_code` is
required to be the candidate's own country (the value the rendered form
carries). -/
inductive Step : DB → DB → Prop where
  | seed (R : RandSrc) (maps : HexMaps) (countries : List CountrySpec)
      (now : Nat) (db : DB) (hR : GoodRand R) :
      Step db (seedInitialPrayerQueue R maps countries db now).1
  | reseed (R : RandSrc) (maps : HexMaps) (countries : List CountrySpec)
      (now : Nat) (db : DB) (hR : GoodRand R) :
      Step db (updateQueueResult R maps countries db now).1
  | mark (db : DB) (cid now : Nat) :
      Step db (markRepresentativeAsPrayed db cid now).1
  | putBackNone (db : DB) (cid now : Nat) :
      Step db (putRepresentativeBackInQueue db cid none now).1
  | putBack (R : RandSrc) (maps : HexMaps) (db : DB) (cid : Nat) (cc : String)
      (now : Nat) (hR : GoodRand R)
      (hcc : ∀ c ∈ db.rows, c.id = cid → c.country_code = cc) :
      Step db (putBackHtmx R maps db cid cc now).1

/-- States reachable from a fresh database by engine operations. -/
def Reachable (db : DB) : Prop := Relation.ReflTransGen Step dbEmpty db

/-- Every hex id paired to an item by the assignment loop is free for that
item's country in the given table state. -/
def AssignedFresh (db : DB) (l : List (Item × Option String)) : Prop :=
  ∀ p ∈ l, ∀ h, p.2 = some h → HexFreshFor db p.1.country_code h

/-- No two same-country entries of an assignment carry the same hex id. -/
def AssignedDistinct (l : List (Item × Option String)) : Prop :=
  l.Pairwise fun p q => p.1.country_code = q.1.country_code →
    ∀ h, p.2 = some h → q.2 ≠ some h

/-- A roster row carrying only a person name (pandas turned every other cell
into `None`). -/
def namedRow (nm : String) : RosterRow := ⟨some nm, none, none, none⟩

/-- A one-country configuration whose israel roster lists the same person
twice with no post label — a roster CSV can repeat a person. -/
def dupCountries : List CountrySpec :=
  [⟨"israel", none, [namedRow "Alice", namedRow "Alice"]⟩]

/-- The state produced by seeding a fresh database from `dupCountries`. -/
def dupSeededDB : DB :=
  (seedInitialPrayerQueue idRand [] dupCountries dbEmpty 0).1

/-- `dupSeededDB` after marking candidate 1 (one of the two Alice rows) as
prayed. -/
def dupPrayedDB : DB := (markRepresentativeAsPrayed dupSeededDB 1 5).1

/-- A configuration with two distinct non-null post labels for one person. -/
def twoLabelCountries : List CountrySpec :=
  [⟨"israel", none, [⟨some "Alice", some "North", none, none⟩,
                     ⟨some "Alice", some "South", none, none⟩]⟩]

/-- The state produced by seeding a fresh database from `twoLabelCountries`. -/
def twoLabelDB : DB :=
  (seedInitialPrayerQueue idRand [] twoLabelCountries dbEmpty 0).1

/-- A three-person israel roster. -/
def hexCountries : List CountrySpec :=
  [⟨"israel", none, [namedRow "Alice", namedRow "Bob", namedRow "Carol"]⟩]

/-- An israel map with two hex cells. -/
def hexMapsEx : HexMaps := [("israel", ["h1", "h2"])]

/-- The state produced by seeding three candidates over a two-cell map. -/
def hexSeededDB : DB :=
  (seedInitialPrayerQueue idRand hexMapsEx hexCountries dbEmpty 0).1

/-- A single queued row. -/
def exQueuedRow : Candidate :=
  ⟨1, "Bob", none, "israel", some "Other", none, Status.queued, 0, 0, none⟩

/-- A database holding only `exQueuedRow`. -/
def exQueuedDB : DB := ⟨[exQueuedRow], 2⟩

/-- A one-row israel roster listing Bob. -/
def bobCountries : List CountrySpec := [⟨"israel", none, [namedRow "Bob"]⟩]

/-- A queued row with every nullable column populated. -/
def exAliceRow : Candidate :=
  ⟨1, "Alice", some "North", "israel", some "Likud", some "img.png",
   Status.queued, 10, 10, some "h9"⟩

/-- A database holding only `exAliceRow`. -/
def exAliceDB : DB := ⟨[exAliceRow], 2⟩

/-- A prayed israel candidate currently holding hex `"A"`. -/
def exDanaRow : Candidate :=
  ⟨1, "Dana", none, "israel", some "Other", none, Status.prayed, 3, 3, some "A"⟩

/-- A database holding only `exDanaRow`. -/
def exDanaDB : DB := ⟨[exDanaRow], 2⟩

/-- An israel map whose only cell is `"B"`. -/
def mapsB : HexMaps := [("israel", ["B"])]


/-- `exDanaRow` as put back in the queue at time 11 with its hex preserved. -/
def exDanaBack : Candidate :=
  { exDanaRow with status := Status.queued, status_timestamp := 11 }

/-- `exAliceDB` after marking Alice prayed at time 42. -/
def exAliceMarkedDB : DB :=
  ⟨[{ exAliceRow with status := Status.prayed, status_timestamp := 42 }], 2⟩

/-- The value `mark_representative_as_prayed` returns for Alice at time 42. -/
def exAliceDetails : PrayedDetails :=
  ⟨{ exAliceRow with status := Status.prayed }, 42⟩

/-- A database holding one prayed Alice and nothing queued. -/
def exPrayedOnlyDB : DB :=
  ⟨[⟨1, "Alice", none, "israel", some "Other", none, Status.prayed, 2, 2, none⟩], 2⟩

/-- An israel roster listing Alice and Bob. -/
def abCountries : List CountrySpec :=
  [⟨"israel", none, [namedRow "Alice", namedRow "Bob"]⟩]

/-- The row seeding inserts for Bob over `exPrayedOnlyDB` at time 9. -/
def exBobSeeded : Candidate :=
  ⟨2, "Bob", none, "israel", some "Other", none, Status.queued, 9, 9, none⟩


theorem status_queued_or_prayed (s : Status) :
    s = Status.queued ∨ s = Status.prayed := by
  cases s
  · exact Or.inl rfl
  · exact Or.inr rfl

theorem goodRand_idRand : GoodRand idRand :=
  ⟨fun l => List.Perm.refl l, fun l => List.Perm.refl l⟩

theorem popLast_eq_append {h : String} :
    ∀ {l t : List String}, popLast l = some (h, t) → l = t ++ [h] := by
  intro l
  induction l with
  | nil => intro t hp; simp [popLast] at hp
  | cons x xs ih =>
    intro t hp
    cases xs with
    | nil =>
      simp only [popLast, Option.some.injEq, Prod.mk.injEq] at hp
      rw [← hp.1, ← hp.2]
      rfl
    | cons y ys =>
      cases hq : popLast (y :: ys) with
      | none => rw [popLast, hq] at hp; cases hp
      | some pr =>
        obtain ⟨h2, t2⟩ := pr
        rw [popLast, hq] at hp
        simp only [Option.some.injEq, Prod.mk.injEq] at hp
        obtain ⟨hph, hpt⟩ := hp
        subst hph
        have hrec := ih hq
        rw [← hpt, List.cons_append, ← hrec]

theorem popLast_mem {l t : List String} {h : String}
    (hp : popLast l = some (h, t)) : h ∈ l := by
  rw [popLast_eq_append hp]
  exact List.mem_append_right _ (List.mem_singleton_self h)

theorem popLast_subset {l t : List String} {h : String}
    (hp : popLast l = some (h, t)) : t ⊆ l := by
  rw [popLast_eq_append hp]
  exact List.subset_append_left _ _

theorem popLast_nodup {l t : List String} {h : String}
    (hp : popLast l = some (h, t)) (hnd : l.Nodup) : t.Nodup ∧ h ∉ t := by
  rw [popLast_eq_append hp] at hnd
  rw [List.nodup_append] at hnd
  exact ⟨hnd.1, fun hmem => hnd.2.2 hmem (List.mem_singleton_self h)⟩

theorem availMap_get_set_self {a : AvailMap} {cc : String} {l : List String}
    (hcc : cc ∈ randomAllocationCountries) : (a.set cc l).get cc = l := by
  simp only [randomAllocationCountries, List.mem_cons, List.mem_singleton,
    List.not_mem_nil, or_false] at hcc
  rcases hcc with h1 | h2
  · subst h1; rfl
  · subst h2; rfl

theorem availMap_get_set_subset {a : AvailMap} {cc : String} {t : List String}
    (ht : t ⊆ a.get cc) : ∀ cc2, (a.set cc t).get cc2 ⊆ a.get cc2 := by
  intro cc2
  unfold AvailMap.set AvailMap.get at *
  by_cases h1 : cc = "israel" <;> by_cases h2 : cc = "iran" <;>
    by_cases h3 : cc2 = "israel" <;> by_cases h4 : cc2 = "iran" <;>
    simp_all

theorem availMap_get_set_cases (a : AvailMap) (cc : String) (t : List String)
    (cc2 : String) :
    (a.set cc t).get cc2 = t ∨ (a.set cc t).get cc2 = a.get cc2 := by
  unfold AvailMap.set AvailMap.get
  by_cases h1 : cc = "israel" <;> by_cases h2 : cc = "iran" <;>
    by_cases h3 : cc2 = "israel" <;> by_cases h4 : cc2 = "iran" <;>
    simp_all

theorem availMap_get_set_nodup {a : AvailMap} {cc : String} {t : List String}
    (ha : ∀ cc2, (a.get cc2).Nodup) (ht : t.Nodup) :
    ∀ cc2, ((a.set cc t).get cc2).Nodup := by
  intro cc2
  rcases availMap_get_set_cases a cc t cc2 with h | h <;> rw [h]
  · exact ht
  · exact ha cc2

theorem assignHexes_map_fst (a : AvailMap) :
    ∀ l : List Item, (assignHexes a l).map Prod.fst = l := by
  intro l
  induction l generalizing a with
  | nil => rfl
  | cons i rest ih =>
    unfold assignHexes
    split
    · cases hq : popLast (a.get i.country_code) with
      | none => simp [ih]
      | some pr => simp [ih]
    · simp [ih]

theorem assignHexes_mem_fst {a : AvailMap} {l : List Item}
    {p : Item × Option String} (hp : p ∈ assignHexes a l) : p.1 ∈ l := by
  have : p.1 ∈ (assignHexes a l).map Prod.fst := List.mem_map_of_mem Prod.fst hp
  rwa [assignHexes_map_fst] at this

theorem assignHexes_hex_mem {l : List Item} :
    ∀ {a : AvailMap} {p : Item × Option String}, p ∈ assignHexes a l →
      ∀ h, p.2 = some h → h ∈ a.get p.1.country_code := by
  induction l with
  | nil => intro a p hp; cases hp
  | cons i rest ih =>
    intro a p hp h hh
    unfold assignHexes at hp
    by_cases hrc : i.country_code ∈ randomAllocationCountries
    · rw [if_pos hrc] at hp
      cases hq : popLast (a.get i.country_code) with
      | none =>
        rw [hq] at hp
        rcases List.mem_cons.mp hp with h1 | h2
        · subst h1; cases hh
        · exact ih h2 h hh
      | some pr =>
        obtain ⟨hx, t⟩ := pr
        rw [hq] at hp
        rcases List.mem_cons.mp hp with h1 | h2
        · subst h1
          simp only at hh
          cases hh
          exact popLast_mem hq
        · have hmem := ih h2 h hh
          exact availMap_get_set_subset (popLast_subset hq) _ hmem
    · rw [if_neg hrc] at hp
      rcases List.mem_cons.mp hp with h1 | h2
      · subst h1; cases hh
      · exact ih h2 h hh

theorem assignedDistinct_of_nodup {l : List Item} :
    ∀ {a : AvailMap}, (∀ cc, (a.get cc).Nodup) →
      AssignedDistinct (assignHexes a l) := by
  induction l with
  | nil => intro a ha; exact List.Pairwise.nil
  | cons i rest ih =>
    intro a ha
    unfold assignHexes
    by_cases hrc : i.country_code ∈ randomAllocationCountries
    · rw [if_pos hrc]
      cases hq : popLast (a.get i.country_code) with
      | none =>
        refine List.Pairwise.cons ?_ (ih ha)
        intro q _ _ h hh
        cases hh
      | some pr =>
        obtain ⟨hx, t⟩ := pr
        have hnd := popLast_nodup hq (ha i.country_code)
        refine List.Pairwise.cons ?_ (ih (availMap_get_set_nodup ha hnd.1))
        intro q hq2 hccEq h hh
        simp only [Option.some.injEq] at hh
        intro hcontra
        rw [← hh] at hcontra
        have hmem := assignHexes_hex_mem hq2 hx hcontra
        rw [← hccEq] at hmem
        rw [availMap_get_set_self hrc] at hmem
        exact hnd.2 hmem
    · rw [if_neg hrc]
      refine List.Pairwise.cons ?_ (ih ha)
      intro q _ _ h hh
      cases hh

theorem mem_usedHexIdsExcl {db : DB} {cc : String} {excl : Option Nat}
    {d : Candidate} (hd : d ∈ db.rows) (hcc : d.country_code = cc)
    (hst : d.status = Status.queued ∨ d.status = Status.prayed)
    (hexc : ∀ e, excl = some e → e ≠ 0 → d.id ≠ e) {h : String}
    (hh : d.hex_id = some h) : h ∈ usedHexIdsExcl db cc excl := by
  unfold usedHexIdsExcl
  refine List.mem_filterMap.mpr ⟨d, hd, ?_⟩
  rw [hh]
  cases excl with
  | none => rcases hst with h1 | h1 <;> simp [hcc, h1]
  | some e =>
    by_cases he : e = 0
    · rcases hst with h1 | h1 <;> simp [hcc, h1, he]
    · have hne := hexc e rfl he
      rcases hst with h1 | h1 <;> simp [hcc, h1, he, hne]

theorem hexFreshFor_of_not_used {db : DB} {cc : String} {h : String}
    (hn : h ∉ usedHexIdsExcl db cc none) : HexFreshFor db cc h := by
  intro c hc hcc hst hhex
  exact hn (mem_usedHexIdsExcl hc hcc hst (fun e he => by cases he) hhex)

theorem availableHexesFor_spec {R : RandSrc} {maps : HexMaps} {db : DB}
    (hR : GoodRand R) (cc : String) :
    (availableHexesFor R maps db cc).Nodup ∧
      ∀ h ∈ availableHexesFor R maps db cc, HexFreshFor db cc h := by
  unfold availableHexesFor
  cases hf : maps.find? fun p => decide (p.1 = cc) with
  | none => exact ⟨List.Pairwise.nil, fun h hh => absurd hh (List.not_mem_nil h)⟩
  | some p =>
    have hperm := hR.2 (p.2.dedup.filter fun h => !((usedHexIdsExcl db cc none).contains h))
    constructor
    · exact hperm.nodup_iff.mpr ((p.2.nodup_dedup).filter _)
    · intro h hh
      have hmem := hperm.mem_iff.mp hh
      have hpred := List.of_mem_filter hmem
      simp only [Bool.not_eq_true'] at hpred
      apply hexFreshFor_of_not_used
      intro hcontra
      simp at hpred
      exact hpred hcontra

theorem assignedFresh_of_avail {db : DB} {a : AvailMap}
    (hfr : ∀ cc, ∀ h ∈ a.get cc, HexFreshFor db cc h) (l : List Item) :
    AssignedFresh db (assignHexes a l) := by
  intro p hp h hh
  exact hfr p.1.country_code h (assignHexes_hex_mem hp h hh)

theorem indexConflict_true {pn cc : String} {pl : Option String} {d : Candidate}
    (hpn : d.person_name = pn) (hcc : d.country_code = cc) {s : String}
    (h1 : pl = some s) (h2 : d.post_label = some s) :
    indexConflict pn pl cc d = true := by
  unfold indexConflict
  rw [h1, h2]
  simp [hpn, hcc]

theorem insertOrIgnore_inv {db : DB} {c : Candidate} (hInv : DBInv db)
    (hfresh : ∀ h, c.hex_id = some h → HexFreshFor db c.country_code h) :
    DBInv (db.insertOrIgnore c).1 := by
  obtain ⟨hnd, hbd, huq, hhx⟩ := hInv
  unfold DB.insertOrIgnore
  split
  · exact ⟨hnd, hbd, huq, hhx⟩
  · rename_i hnoconf
    rw [List.any_eq_true] at hnoconf
    push_neg at hnoconf
    simp only [Bool.not_eq_true] at hnoconf
    set cNew : Candidate := { c with id := db.nextId } with hcNew
    have hmemNew : ∀ x : Candidate, x ∈ db.rows ++ [cNew] →
        x ∈ db.rows ∨ x = cNew := by
      intro x hx
      rcases List.mem_append.mp hx with h1 | h1
      · exact Or.inl h1
      · exact Or.inr (List.mem_singleton.mp h1)
    refine ⟨?_, ?_, ?_, ?_⟩
    · show (List.map (fun x => x.id) (db.rows ++ [cNew])).Nodup
      rw [List.map_append, List.nodup_append]
      refine ⟨hnd, List.nodup_singleton _, ?_⟩
      intro a ha hb
      rcases List.mem_map.mp ha with ⟨d, hd, hda⟩
      rcases List.mem_map.mp hb with ⟨e, he, hea⟩
      rw [List.mem_singleton.mp he] at hea
      have : d.id = db.nextId := by rw [hda, ← hea]
      exact absurd this (Nat.ne_of_lt (hbd d hd))
    · intro x hx
      rcases hmemNew x hx with h1 | h1
      · exact Nat.lt_trans (hbd x h1) (Nat.lt_succ_self _)
      · rw [h1]; exact Nat.lt_succ_self _
    · intro x hx y hy hxy hpn hcc hpl
      rcases hmemNew x hx with h1 | h1 <;> rcases hmemNew y hy with h2 | h2
      · exact huq x h1 y h2 hxy hpn hcc hpl
      · by_contra hne
        rcases Option.ne_none_iff_exists'.mp hne with ⟨s, hs⟩
        have hys : y.post_label = some s := by rw [← hpl, hs]
        have hconf := @indexConflict_true c.person_name c.country_code
          c.post_label x (by rw [hpn, h2]) (by rw [hcc, h2]) s
          (by rw [h2] at hys; exact hys) hs
        exact absurd hconf (by simp [hnoconf x h1])
      · by_contra hne
        rcases Option.ne_none_iff_exists'.mp hne with ⟨s, hs⟩
        rw [h1] at hs
        have hys : y.post_label = some s := by rw [← hpl, h1, hs]
        have hconf := @indexConflict_true c.person_name c.country_code
          c.post_label y (by rw [← hpn, h1]) (by rw [← hcc, h1]) s hs hys
        exact absurd hconf (by simp [hnoconf y h2])
      · rw [h1, h2] at hxy
        exact absurd rfl hxy
    · intro x hx y hy hxy hcc hstx hsty hxne
      rcases hmemNew x hx with h1 | h1 <;> rcases hmemNew y hy with h2 | h2
      · exact hhx x h1 y h2 hxy hcc hstx hsty hxne
      · -- y is the new row
        rcases Option.ne_none_iff_exists'.mp hxne with ⟨hx2, hhx2⟩
        intro hcontra
        rw [hhx2] at hcontra
        have hyhex : y.hex_id = some hx2 := hcontra.symm
        rw [h2] at hyhex
        have : c.hex_id = some hx2 := hyhex
        have hfr := hfresh hx2 this
        have hxcc : x.country_code = c.country_code := by rw [hcc, h2]
        exact hfr x h1 hxcc hstx hhx2
      · -- x is the new row
        rcases Option.ne_none_iff_exists'.mp hxne with ⟨hx2, hhx2⟩
        have hxhex : c.hex_id = some hx2 := by rw [h1] at hhx2; exact hhx2
        have hfr := hfresh hx2 hxhex
        have hycc : y.country_code = c.country_code := by rw [← hcc, h1]
        intro hcontra
        have : y.hex_id = some hx2 := by rw [← hcontra, hhx2]
        exact hfr y h2 hycc hsty this
      · rw [h1, h2] at hxy
        exact absurd rfl hxy

theorem assignedFresh_after_insert {db : DB} {p : Item × Option String}
    {rest : List (Item × Option String)} {c : Candidate}
    (hf : AssignedFresh db (p :: rest)) (hd : AssignedDistinct (p :: rest))
    (hcHex : c.hex_id = p.2) (hcCc : c.country_code = p.1.country_code) :
    AssignedFresh (db.insertOrIgnore c).1 rest := by
  have hpair := List.pairwise_cons.mp hd
  intro q hq h hh e he hecc hest
  unfold DB.insertOrIgnore at he
  split at he
  · exact hf q (List.mem_cons_of_mem p hq) h hh e he hecc hest
  · simp only at he
    rcases List.mem_append.mp he with h1 | h1
    · exact hf q (List.mem_cons_of_mem p hq) h hh e h1 hecc hest
    · have he2 := List.mem_singleton.mp h1
      subst he2
      show ({ c with id := db.nextId } : Candidate).hex_id ≠ some h
      have hgoal : ({ c with id := db.nextId } : Candidate).hex_id = p.2 := hcHex
      rw [hgoal]
      have hccq : p.1.country_code = q.1.country_code := by
        rw [← hcCc]
        exact hecc
      cases hp2 : p.2 with
      | none => simp
      | some h0 =>
        intro heq
        injection heq with heq2
        subst heq2
        exact (hpair.1 q hq hccq h0 hp2) hh

theorem insertOrIgnore_cases (db : DB) (c : Candidate) :
    ((db.insertOrIgnore c).1 = db ∧ (db.insertOrIgnore c).2 = 0) ∨
    ((db.insertOrIgnore c).1 =
        ⟨db.rows ++ [{ c with id := db.nextId }], db.nextId + 1⟩ ∧
      (db.insertOrIgnore c).2 = 1) := by
  unfold DB.insertOrIgnore
  split
  · exact Or.inl ⟨rfl, rfl⟩
  · exact Or.inr ⟨rfl, rfl⟩

theorem insertItemsWith_inv (mk : Item → Option String → Nat → Candidate)
    (hmkHex : ∀ i h n, (mk i h n).hex_id = h)
    (hmkCc : ∀ i h n, (mk i h n).country_code = i.country_code) :
    ∀ (l : List (Item × Option String)) (db : DB) (now : Nat),
      DBInv db → AssignedFresh db l → AssignedDistinct l →
      DBInv (insertItemsWith mk db l now).1 := by
  intro l
  induction l with
  | nil => intro db now hInv _ _; exact hInv
  | cons p rest ih =>
    intro db now hInv hf hd
    show DBInv (insertItemsWith mk (db.insertOrIgnore (mk p.1 p.2 now)).1 rest now).1
    apply ih
    · apply insertOrIgnore_inv hInv
      intro h hh
      rw [hmkHex p.1 p.2 now] at hh
      rw [hmkCc p.1 p.2 now]
      exact hf p (List.mem_cons_self p rest) h hh
    · exact assignedFresh_after_insert hf hd (hmkHex p.1 p.2 now) (hmkCc p.1 p.2 now)
    · exact (List.pairwise_cons.mp hd).2

theorem insertItemsWith_rows (mk : Item → Option String → Nat → Candidate) :
    ∀ (l : List (Item × Option String)) (db : DB) (now : Nat),
      ∃ extra, (insertItemsWith mk db l now).1.rows = db.rows ++ extra ∧
        ∀ c ∈ extra, db.nextId ≤ c.id ∧
          ∃ p ∈ l, c = { mk p.1 p.2 now with id := c.id } := by
  intro l
  induction l with
  | nil =>
    intro db now
    exact ⟨[], (List.append_nil _).symm, fun c hc => absurd hc (List.not_mem_nil c)⟩
  | cons p rest ih =>
    intro db now
    show ∃ extra,
      (insertItemsWith mk (db.insertOrIgnore (mk p.1 p.2 now)).1 rest now).1.rows
        = db.rows ++ extra ∧ _
    rcases insertOrIgnore_cases db (mk p.1 p.2 now) with ⟨heq, _⟩ | ⟨heq, _⟩
    · rw [heq]
      obtain ⟨extra, hrows, hmem⟩ := ih db now
      refine ⟨extra, hrows, fun c hc => ⟨(hmem c hc).1, ?_⟩⟩
      obtain ⟨q, hq, hcq⟩ := (hmem c hc).2
      exact ⟨q, List.mem_cons_of_mem p hq, hcq⟩
    · rw [heq]
      obtain ⟨extra, hrows, hmem⟩ :=
        ih ⟨db.rows ++ [{ mk p.1 p.2 now with id := db.nextId }], db.nextId + 1⟩ now
      refine ⟨{ mk p.1 p.2 now with id := db.nextId } :: extra, ?_, ?_⟩
      · rw [hrows]
        simp
      · intro c hc
        rcases List.mem_cons.mp hc with h1 | h1
        · subst h1
          refine ⟨Nat.le_refl _, p, List.mem_cons_self p rest, ?_⟩
          simp
        · obtain ⟨hid, q, hq, hcq⟩ := hmem c h1
          exact ⟨Nat.le_trans (Nat.le_succ _) hid, q, List.mem_cons_of_mem p hq, hcq⟩

theorem rows_eq_of_id_eq {db : DB} (hnd : NoDupIds db) {c d : Candidate}
    (hc : c ∈ db.rows) (hd : d ∈ db.rows) (hid : c.id = d.id) : c = d :=
  List.inj_on_of_nodup_map hnd hc hd hid

theorem deleteQueued_inv {db : DB} (hInv : DBInv db) : DBInv (deleteQueued db) := by
  obtain ⟨hnd, hbd, huq, hhx⟩ := hInv
  refine ⟨?_, ?_, ?_, ?_⟩
  · exact hnd.sublist ((db.rows.filter_sublist).map _)
  · intro c hc
    exact hbd c (List.mem_filter.mp hc).1
  · intro x hx y hy hxy hpn hcc hpl
    exact huq x (List.mem_filter.mp hx).1 y (List.mem_filter.mp hy).1 hxy hpn hcc hpl
  · intro x hx y hy hxy hcc hstx hsty hxne
    exact hhx x (List.mem_filter.mp hx).1 y (List.mem_filter.mp hy).1 hxy hcc hstx
      hsty hxne

theorem dbInv_map {db : DB} {f : Candidate → Candidate} (hInv : DBInv db)
    (hpres : ∀ c ∈ db.rows, (f c).id = c.id ∧ (f c).person_name = c.person_name ∧
      (f c).post_label = c.post_label ∧ (f c).country_code = c.country_code ∧
      (f c).hex_id = c.hex_id) :
    DBInv ⟨db.rows.map f, db.nextId⟩ := by
  obtain ⟨hnd, hbd, huq, hhx⟩ := hInv
  refine ⟨?_, ?_, ?_, ?_⟩
  · show (List.map (fun x => x.id) (db.rows.map f)).Nodup
    rw [List.map_map]
    have heq : db.rows.map ((fun x => x.id) ∘ f) = db.rows.map (fun x => x.id) :=
      List.map_congr_left fun c hc => (hpres c hc).1
    rw [heq]
    exact hnd
  · intro x hx
    rcases List.mem_map.mp hx with ⟨c, hc, hfc⟩
    subst hfc
    rw [(hpres c hc).1]
    exact hbd c hc
  · intro x hx y hy hxy hpn hcc hpl
    rcases List.mem_map.mp hx with ⟨c, hc, hfc⟩
    rcases List.mem_map.mp hy with ⟨d, hd, hfd⟩
    subst hfc
    subst hfd
    obtain ⟨hc1, hc2, hc3, hc4, hc5⟩ := hpres c hc
    obtain ⟨hd1, hd2, hd3, hd4, hd5⟩ := hpres d hd
    rw [hc3]
    exact huq c hc d hd (by rw [hc1, hd1] at hxy; exact hxy)
      (by rw [hc2, hd2] at hpn; exact hpn)
      (by rw [hc4, hd4] at hcc; exact hcc)
      (by rw [hc3, hd3] at hpl; exact hpl)
  · intro x hx y hy hxy hcc hstx hsty hxne
    rcases List.mem_map.mp hx with ⟨c, hc, hfc⟩
    rcases List.mem_map.mp hy with ⟨d, hd, hfd⟩
    subst hfc
    subst hfd
    obtain ⟨hc1, _, _, hc4, hc5⟩ := hpres c hc
    obtain ⟨hd1, _, _, hd4, hd5⟩ := hpres d hd
    rw [hc5, hd5]
    exact hhx c hc d hd (by rw [hc1, hd1] at hxy; exact hxy)
      (by rw [hc4, hd4] at hcc; exact hcc)
      (status_queued_or_prayed _) (status_queued_or_prayed _)
      (by rw [hc5] at hxne; exact hxne)

theorem markPrayedUpdate_inv {db : DB} {cid now : Nat} (hInv : DBInv db) :
    DBInv (markPrayedUpdate db cid now).1 := by
  apply dbInv_map hInv
  intro c _
  unfold markPrayedRowUpdate
  split <;> exact ⟨rfl, rfl, rfl, rfl, rfl⟩

theorem markRepresentativeAsPrayed_inv {db : DB} {cid now : Nat}
    (hInv : DBInv db) : DBInv (markRepresentativeAsPrayed db cid now).1 := by
  unfold markRepresentativeAsPrayed
  cases db.rows.find? fun c => decide (c.id = cid ∧ c.status = Status.queued) with
  | none => exact hInv
  | some item =>
    simp only
    split
    · exact markPrayedUpdate_inv hInv
    · exact hInv

theorem putBackRowUpdate_eq_pos {cid now : Nat} {hex : Option String}
    {c : Candidate} (h : c.id = cid ∧ c.status = Status.prayed) :
    putBackRowUpdate cid now hex c =
      { c with status := Status.queued, status_timestamp := now, hex_id := hex } := by
  unfold putBackRowUpdate
  rw [if_pos h]

theorem putBackRowUpdate_eq_neg {cid now : Nat} {hex : Option String}
    {c : Candidate} (h : ¬(c.id = cid ∧ c.status = Status.prayed)) :
    putBackRowUpdate cid now hex c = c := by
  unfold putBackRowUpdate
  rw [if_neg h]

theorem dbInv_map_keys {db : DB} {f : Candidate → Candidate} (hInv : DBInv db)
    (hpres : ∀ c ∈ db.rows, (f c).id = c.id ∧ (f c).person_name = c.person_name ∧
      (f c).post_label = c.post_label ∧ (f c).country_code = c.country_code) :
    NoDupIds ⟨db.rows.map f, db.nextId⟩ ∧ IdsBounded ⟨db.rows.map f, db.nextId⟩ ∧
      UniqueNonNullKey ⟨db.rows.map f, db.nextId⟩ := by
  obtain ⟨hnd, hbd, huq, _⟩ := hInv
  refine ⟨?_, ?_, ?_⟩
  · show (List.map (fun x => x.id) (db.rows.map f)).Nodup
    rw [List.map_map]
    have heq : db.rows.map ((fun x => x.id) ∘ f) = db.rows.map (fun x => x.id) :=
      List.map_congr_left fun c hc => (hpres c hc).1
    rw [heq]
    exact hnd
  · intro x hx
    rcases List.mem_map.mp hx with ⟨c, hc, hfc⟩
    subst hfc
    rw [(hpres c hc).1]
    exact hbd c hc
  · intro x hx y hy hxy hpn hcc hpl
    rcases List.mem_map.mp hx with ⟨c, hc, hfc⟩
    rcases List.mem_map.mp hy with ⟨d, hd, hfd⟩
    subst hfc
    subst hfd
    obtain ⟨hc1, hc2, hc3, hc4⟩ := hpres c hc
    obtain ⟨hd1, hd2, hd3, hd4⟩ := hpres d hd
    rw [hc3]
    exact huq c hc d hd (by rw [hc1, hd1] at hxy; exact hxy)
      (by rw [hc2, hd2] at hpn; exact hpn)
      (by rw [hc4, hd4] at hcc; exact hcc)
      (by rw [hc3, hd3] at hpl; exact hpl)

theorem putRepresentativeBackInQueue_inv {db : DB} {cid now : Nat}
    {newHex : Option String} (hInv : DBInv db)
    (hfr : ∀ h, newHex = some h → ∀ item ∈ db.rows, item.id = cid →
      item.status = Status.prayed → ∀ d ∈ db.rows, d.id ≠ cid →
      d.country_code = item.country_code → d.hex_id ≠ some h) :
    DBInv (putRepresentativeBackInQueue db cid newHex now).1 := by
  unfold putRepresentativeBackInQueue
  cases hfind : db.rows.find? fun c => decide (c.id = cid ∧ c.status = Status.prayed) with
  | none => exact hInv
  | some item =>
    simp only
    split
    case isFalse => exact hInv
    case isTrue =>
      have hitem_mem := List.mem_of_find?_eq_some hfind
      have hitem_pred : item.id = cid ∧ item.status = Status.prayed := by
        have := List.find?_some hfind
        simpa using this
      have hpresKeys : ∀ c ∈ db.rows,
          ∀ hex : Option String,
          (putBackRowUpdate cid now hex c).id = c.id ∧
          (putBackRowUpdate cid now hex c).person_name = c.person_name ∧
          (putBackRowUpdate cid now hex c).post_label = c.post_label ∧
          (putBackRowUpdate cid now hex c).country_code = c.country_code := by
        intro c _ hex
        unfold putBackRowUpdate
        split <;> exact ⟨rfl, rfl, rfl, rfl⟩
      have hid_ne : ∀ d ∈ db.rows, ¬(d.id = cid ∧ d.status = Status.prayed) →
          d.id ≠ cid := by
        intro d hd hdm heq
        have : d = item := rows_eq_of_id_eq hInv.1 hd hitem_mem (by rw [heq, hitem_pred.1])
        exact hdm ⟨heq, by rw [this]; exact hitem_pred.2⟩
      cases hnh : newHex with
      | none =>
        -- the candidate keeps its own hex id
        apply dbInv_map hInv
        intro c hc
        by_cases hcm : c.id = cid ∧ c.status = Status.prayed
        · rw [putBackRowUpdate_eq_pos hcm]
          have hci : c = item :=
            rows_eq_of_id_eq hInv.1 hc hitem_mem (by rw [hcm.1, hitem_pred.1])
          exact ⟨rfl, rfl, rfl, rfl, by show item.hex_id = c.hex_id; rw [hci]⟩
        · rw [putBackRowUpdate_eq_neg hcm]
          exact ⟨rfl, rfl, rfl, rfl, rfl⟩
      | some h =>
        obtain ⟨hk1, hk2, hk3⟩ :=
          dbInv_map_keys hInv (fun c hc => hpresKeys c hc (some h))
        refine ⟨hk1, hk2, hk3, ?_⟩
        intro x hx y hy hxy hcc hstx hsty hxne
        rcases List.mem_map.mp hx with ⟨c, hc, hfc⟩
        rcases List.mem_map.mp hy with ⟨d, hd, hfd⟩
        subst hfc
        subst hfd
        by_cases hcm : c.id = cid ∧ c.status = Status.prayed <;>
          by_cases hdm : d.id = cid ∧ d.status = Status.prayed
        · -- both are the target: impossible, distinct ids
          exfalso
          have hcd : c = d :=
            rows_eq_of_id_eq hInv.1 hc hd (by rw [hcm.1, hdm.1])
          apply hxy
          rw [hcd]
        · -- x is the updated target, y untouched
          rw [putBackRowUpdate_eq_pos hcm] at hcc hxne ⊢
          rw [putBackRowUpdate_eq_neg hdm] at hcc hsty ⊢
          have hci : c = item :=
            rows_eq_of_id_eq hInv.1 hc hitem_mem (by rw [hcm.1, hitem_pred.1])
          have hdne : d.id ≠ cid := hid_ne d hd hdm
          have hdcc : d.country_code = item.country_code := by
            rw [← hci]
            exact hcc.symm
          have := hfr h hnh item hitem_mem hitem_pred.1 hitem_pred.2 d hd hdne hdcc
          simp only
          intro heq
          exact this heq.symm
        · -- y is the updated target, x untouched
          rw [putBackRowUpdate_eq_neg hcm] at hcc hstx hxne ⊢
          rw [putBackRowUpdate_eq_pos hdm] at hcc ⊢
          have hdi : d = item :=
            rows_eq_of_id_eq hInv.1 hd hitem_mem (by rw [hdm.1, hitem_pred.1])
          have hcne : c.id ≠ cid := hid_ne c hc hcm
          have hccit : c.country_code = item.country_code := by
            rw [← hdi]
            exact hcc
          exact hfr h hnh item hitem_mem hitem_pred.1 hitem_pred.2 c hc hcne hccit
        · rw [putBackRowUpdate_eq_neg hcm] at hcc hstx hxne ⊢
          rw [putBackRowUpdate_eq_neg hdm] at hcc hsty ⊢
          exact hInv.2.2.2 c hc d hd
            (by rw [putBackRowUpdate_eq_neg hcm, putBackRowUpdate_eq_neg hdm] at hxy
                exact hxy)
            hcc hstx hsty hxne

theorem getAvailableHexIdForCountry_not_used {R : RandSrc} {maps : HexMaps}
    {db : DB} {cc : String} {excl : Option Nat} {h : String} (hR : GoodRand R)
    (hres : getAvailableHexIdForCountry R maps db cc excl = some h) :
    h ∉ usedHexIdsExcl db cc excl := by
  unfold getAvailableHexIdForCountry at hres
  cases hf : maps.find? fun p => decide (p.1 = cc) with
  | none => rw [hf] at hres; cases hres
  | some p =>
    rw [hf] at hres
    simp only at hres
    split at hres
    · cases hres
    · have hmem := List.mem_of_mem_getLast? hres
      have hmem2 := (hR.2 _).mem_iff.mp hmem
      have hpred := List.of_mem_filter hmem2
      simp only [Bool.not_eq_true'] at hpred
      intro hcontra
      simp at hpred
      exact hpred hcontra

theorem usedHexIdsExcl_excl_spec {db : DB} {cc : String} {cid : Nat}
    {h : String} (hn : h ∉ usedHexIdsExcl db cc (some cid)) :
    ∀ d ∈ db.rows, d.id ≠ cid → d.country_code = cc → d.hex_id ≠ some h := by
  intro d hd hdne hdcc hcontra
  apply hn
  apply mem_usedHexIdsExcl hd hdcc (status_queued_or_prayed _) ?_ hcontra
  intro e he _
  injection he with he2
  rw [← he2]
  exact hdne

theorem seedAvail_spec {R : RandSrc} {maps : HexMaps} {db : DB} (hR : GoodRand R) :
    ∀ cc, ((⟨availableHexesFor R maps db "israel",
              availableHexesFor R maps db "iran"⟩ : AvailMap).get cc).Nodup ∧
      ∀ h ∈ (⟨availableHexesFor R maps db "israel",
              availableHexesFor R maps db "iran"⟩ : AvailMap).get cc,
        HexFreshFor db cc h := by
  intro cc
  unfold AvailMap.get
  by_cases h1 : cc = "israel"
  · subst h1
    simp only [if_pos rfl]
    exact availableHexesFor_spec hR "israel"
  · rw [if_neg h1]
    by_cases h2 : cc = "iran"
    · subst h2
      simp only [if_pos rfl]
      exact availableHexesFor_spec hR "iran"
    · rw [if_neg h2]
      exact ⟨List.nodup_nil, fun h hh => absurd hh (List.not_mem_nil h)⟩

theorem uqAvail_spec {R : RandSrc} {maps : HexMaps} {db : DB}
    {codes : List String} (hR : GoodRand R) :
    ∀ cc, ((availMapPrepUQ R maps db codes).get cc).Nodup ∧
      ∀ h ∈ (availMapPrepUQ R maps db codes).get cc, HexFreshFor db cc h := by
  intro cc
  unfold availMapPrepUQ AvailMap.get
  by_cases h1 : cc = "israel"
  · subst h1
    simp only [if_pos rfl]
    by_cases hcodes : "israel" ∈ codes
    · rw [if_pos hcodes]
      exact availableHexesFor_spec hR "israel"
    · rw [if_neg hcodes]
      exact ⟨List.nodup_nil, fun h hh => absurd hh (List.not_mem_nil h)⟩
  · rw [if_neg h1]
    by_cases h2 : cc = "iran"
    · subst h2
      simp only [if_pos rfl]
      by_cases hcodes : "iran" ∈ codes
      · rw [if_pos hcodes]
        exact availableHexesFor_spec hR "iran"
      · rw [if_neg hcodes]
        exact ⟨List.nodup_nil, fun h hh => absurd hh (List.not_mem_nil h)⟩
    · rw [if_neg h2]
      exact ⟨List.nodup_nil, fun h hh => absurd hh (List.not_mem_nil h)⟩

theorem seedInitialPrayerQueue_inv {R : RandSrc} {maps : HexMaps}
    {countries : List CountrySpec} {db : DB} {now : Nat} (hR : GoodRand R)
    (hInv : DBInv db) : DBInv (seedInitialPrayerQueue R maps countries db now).1 := by
  unfold seedInitialPrayerQueue
  split
  · exact hInv
  · apply insertItemsWith_inv mkSeedRow (fun i h n => rfl) (fun i h n => rfl) _ _ _ hInv
    · exact assignedFresh_of_avail (fun cc h hm => ((seedAvail_spec hR) cc).2 h hm) _
    · exact assignedDistinct_of_nodup (fun cc => ((seedAvail_spec hR) cc).1)

theorem updateQueueInsertPhase_inv {R : RandSrc} {maps : HexMaps}
    {countries : List CountrySpec} {db1 : DB} {now : Nat} (hR : GoodRand R)
    (hInv : DBInv db1) :
    DBInv (updateQueueInsertPhase R maps countries db1 now).1 := by
  unfold updateQueueInsertPhase
  apply insertItemsWith_inv mkUpdateRow (fun i h n => rfl) (fun i h n => rfl) _ _ _ hInv
  · exact assignedFresh_of_avail (fun cc h hm => ((uqAvail_spec hR) cc).2 h hm) _
  · exact assignedDistinct_of_nodup (fun cc => ((uqAvail_spec hR) cc).1)

theorem updateQueueResult_inv {R : RandSrc} {maps : HexMaps}
    {countries : List CountrySpec} {db : DB} {now : Nat} (hR : GoodRand R)
    (hInv : DBInv db) : DBInv (updateQueueResult R maps countries db now).1 :=
  updateQueueInsertPhase_inv hR (deleteQueued_inv hInv)

theorem step_inv {db db' : DB} (hs : Step db db') (hInv : DBInv db) :
    DBInv db' := by
  cases hs with
  | seed R maps countries now _ hR => exact seedInitialPrayerQueue_inv hR hInv
  | reseed R maps countries now _ hR => exact updateQueueResult_inv hR hInv
  | mark _ cid now => exact markRepresentativeAsPrayed_inv hInv
  | putBackNone _ cid now =>
    apply putRepresentativeBackInQueue_inv hInv
    intro h hcontra
    cases hcontra
  | putBack R maps _ cid cc now hR hcc =>
    unfold putBackHtmx
    apply putRepresentativeBackInQueue_inv hInv
    intro h hres item hitem hitemid hitemst d hd hdne hdcc
    split at hres
    · have hnot := getAvailableHexIdForCountry_not_used hR hres
      apply usedHexIdsExcl_excl_spec hnot d hd hdne ?_
      rw [hdcc]
      exact hcc item hitem hitemid
    · cases hres

theorem dbInv_dbEmpty : DBInv dbEmpty := by
  refine ⟨List.nodup_nil, ?_, ?_, ?_⟩
  · intro c hc
    cases hc
  · intro c hc
    cases hc
  · intro c hc
    cases hc

theorem dbInv_of_reachable {db : DB} (hr : Reachable db) : DBInv db := by
  induction hr with
  | refl => exact dbInv_dbEmpty
  | tail _ hstep ih => exact step_inv hstep ih

theorem normLabel_storedPostLabel (pl : Option String) :
    normLabel (storedPostLabel pl) = postLabelForCheck pl := by
  cases pl with
  | none => rfl
  | some s =>
    show normLabel (if s.trim = "" then none else some s) =
      if s.trim = "" then "" else s
    by_cases h : s.trim = ""
    · rw [if_pos h, if_pos h]
      rfl
    · rw [if_neg h, if_neg h]
      rfl

theorem seedCollectCountry_spec {prayed : List Key} {cc : String}
    {rows : List RosterRow} {i : Item}
    (hi : i ∈ seedCollectCountry prayed cc rows) :
    i.country_code = cc ∧
      (i.person_name, normLabel i.post_label, i.country_code) ∉ prayed := by
  unfold seedCollectCountry at hi
  rcases List.mem_filterMap.mp hi with ⟨r, _, hr⟩
  cases hnm : r.person_name with
  | none => rw [hnm] at hr; cases hr
  | some nm =>
    rw [hnm] at hr
    simp only at hr
    by_cases h1 : nm = ""
    · rw [if_pos h1] at hr; cases hr
    · rw [if_neg h1] at hr
      by_cases h2 : (nm, postLabelForCheck r.post_label, cc) ∈ prayed
      · rw [if_pos h2] at hr; cases hr
      · rw [if_neg h2] at hr
        injection hr with hr2
        subst hr2
        refine ⟨rfl, ?_⟩
        show (nm, normLabel (storedPostLabel r.post_label), cc) ∉ prayed
        rw [normLabel_storedPostLabel]
        exact h2

theorem updateQueueCollectCountry_spec {prayed : List Key} {cc : String}
    {rows : List RosterRow} {i : Item}
    (hi : i ∈ updateQueueCollectCountry prayed cc rows) :
    i.country_code = cc ∧
      (i.person_name, normLabel i.post_label, i.country_code) ∉ prayed := by
  unfold updateQueueCollectCountry at hi
  rcases List.mem_filterMap.mp hi with ⟨r, _, hr⟩
  cases hnm : r.person_name with
  | none => rw [hnm] at hr; cases hr
  | some nm =>
    rw [hnm] at hr
    simp only at hr
    by_cases h1 : nm = ""
    · rw [if_pos h1] at hr; cases hr
    · rw [if_neg h1] at hr
      by_cases h2 : (nm, postLabelForCheck r.post_label, cc) ∈ prayed
      · rw [if_pos h2] at hr; cases hr
      · rw [if_neg h2] at hr
        injection hr with hr2
        subst hr2
        refine ⟨rfl, ?_⟩
        show (nm, normLabel (storedPostLabel r.post_label), cc) ∉ prayed
        rw [normLabel_storedPostLabel]
        exact h2

theorem seedInitialPrayerQueue_eq {R : RandSrc} {maps : HexMaps}
    {countries : List CountrySpec} {db : DB} {now : Nat}
    (h0 : ¬ 0 < queuedCount db) :
    seedInitialPrayerQueue R maps countries db now =
      insertItemsWith mkSeedRow db
        (assignHexes ⟨availableHexesFor R maps db "israel",
                      availableHexesFor R maps db "iran"⟩
          (R.shuffleItems
            ((countries.map fun cs =>
              if cs.roster.isEmpty then []
              else seedCollectCountry (prayedKeys db) cs.code
                (sampleCountry R cs.cap cs.roster)).flatten))) now := by
  unfold seedInitialPrayerQueue
  rw [if_neg h0]

theorem putBackHtmx_eq (R : RandSrc) (maps : HexMaps) (db : DB) (cid : Nat)
    (ccForm : String) (now : Nat) :
    putBackHtmx R maps db cid ccForm now =
      putRepresentativeBackInQueue db cid
        (if ccForm ∈ randomAllocationCountries then
          getAvailableHexIdForCountry R maps db ccForm (some cid)
        else none) now := rfl

theorem updateQueueResult_eq (R : RandSrc) (maps : HexMaps)
    (countries : List CountrySpec) (db : DB) (now : Nat) :
    updateQueueResult R maps countries db now =
      insertItemsWith mkUpdateRow (deleteQueued db)
        (assignHexes
          (availMapPrepUQ R maps (deleteQueued db) (countries.map fun cs => cs.code))
          (R.shuffleItems
            ((countries.map fun cs =>
              if cs.roster.isEmpty then []
              else updateQueueCollectCountry (prayedKeys (deleteQueued db)) cs.code
                (sampleCountry R cs.cap cs.roster)).flatten))) now := rfl

theorem markPrayedUpdate_rows (db : DB) (cid now : Nat) :
    (markPrayedUpdate db cid now).1.rows =
      db.rows.map (markPrayedRowUpdate cid now) := rfl

theorem find?_markPrayed_after (db : DB) (cid now : Nat) :
    (markPrayedUpdate db cid now).1.rows.find?
      (fun c => decide (c.id = cid ∧ c.status = Status.queued)) = none := by
  rw [List.find?_eq_none]
  intro x hx
  rcases List.mem_map.mp hx with ⟨c, _, hfc⟩
  subst hfc
  unfold markPrayedRowUpdate
  by_cases hcm : c.id = cid ∧ c.status = Status.queued
  · rw [if_pos hcm]
    simp
  · rw [if_neg hcm]
    simp only [decide_eq_true_eq]
    exact hcm

/-- C6: for a candidate that exists with status `queued`, calling MarkPrayed
twice in immediate succession yields success on the first call (a returned
snapshot and a positive affected-row count) and a no-op on the second call
(no snapshot, zero rows affected, and a database state identical to the one
after the first call — in particular no `status_timestamp` or other column
changes). -/
theorem mark_prayed_idempotent (db : DB) (cid now1 now2 : Nat)
    (hq : ∃ c ∈ db.rows, c.id = cid ∧ c.status = Status.queued) :
    ((markRepresentativeAsPrayed db cid now1).2.1 ≠ none ∧
      0 < (markRepresentativeAsPrayed db cid now1).2.2) ∧
    markRepresentativeAsPrayed (markRepresentativeAsPrayed db cid now1).1 cid now2 =
      ((markRepresentativeAsPrayed db cid now1).1, none, 0) := by
  obtain ⟨c, hc, hcid, hcq⟩ := hq
  cases hfind : db.rows.find? fun x => decide (x.id = cid ∧ x.status = Status.queued) with
  | none =>
    rw [List.find?_eq_none] at hfind
    exact absurd (by simp [hcid, hcq] : (fun x => decide (x.id = cid ∧ x.status = Status.queued)) c = true)
      (hfind c hc)
  | some item =>
    have hcount : 0 < (markPrayedUpdate db cid now1).2 := by
      show 0 < db.rows.countP fun x => decide (x.id = cid ∧ x.status = Status.queued)
      rw [List.countP_pos_iff]
      exact ⟨c, hc, by simp [hcid, hcq]⟩
    have h1 : markRepresentativeAsPrayed db cid now1 =
        ((markPrayedUpdate db cid now1).1,
         some ⟨{ item with status := Status.prayed }, now1⟩,
         (markPrayedUpdate db cid now1).2) := by
      unfold markRepresentativeAsPrayed
      rw [hfind]
      simp only
      rw [if_pos hcount]
    rw [h1]
    refine ⟨⟨by simp, hcount⟩, ?_⟩
    show markRepresentativeAsPrayed (markPrayedUpdate db cid now1).1 cid now2 =
      ((markPrayedUpdate db cid now1).1, none, 0)
    unfold markRepresentativeAsPrayed
    rw [find?_markPrayed_after]

/-- C7 (amended): on success, `mark_representative_as_prayed` returns the row
read while still queued except that its `status` entry has been overwritten to
`'prayed'` and an extra `timestamp` entry holds the new transition time; all
other columns (including `status_timestamp` and `hex_id`) are the
pre-transition values. -/
theorem mark_prayed_return_shape (db : DB) (cid now : Nat) (db2 : DB)
    (d : PrayedDetails) (n : Nat)
    (hsucc : markRepresentativeAsPrayed db cid now = (db2, some d, n)) :
    ∃ c ∈ db.rows, c.id = cid ∧ c.status = Status.queued ∧
      d.item = { c with status := Status.prayed } ∧ d.timestamp = now := by
  unfold markRepresentativeAsPrayed at hsucc
  cases hfind : db.rows.find? fun x => decide (x.id = cid ∧ x.status = Status.queued) with
  | none =>
    rw [hfind] at hsucc
    simp only [Prod.mk.injEq] at hsucc
    exact absurd hsucc.2.1 (by simp)
  | some item =>
    rw [hfind] at hsucc
    simp only at hsucc
    split at hsucc
    · simp only [Prod.mk.injEq, Option.some.injEq] at hsucc
      have hpred := List.find?_some hfind
      simp only [decide_eq_true_eq] at hpred
      refine ⟨item, List.mem_of_find?_eq_some hfind, hpred.1, hpred.2, ?_, ?_⟩
      · rw [← hsucc.2.1]
      · rw [← hsucc.2.1]
    · simp only [Prod.mk.injEq] at hsucc
      exact absurd hsucc.2.1 (by simp)

/-- C10: a successful MarkPrayed maps the single matching queued row to a copy
whose only changed columns are `status` and `status_timestamp`; every row not
matching `(id = cid, status = 'queued')` survives unchanged, every result row
is either an untouched original or the single transition image, and no row is
created or deleted.  Both `mark_representative_as_prayed` and the
`/process_item` route run this same UPDATE statement. -/
theorem mark_prayed_frame (db : DB) (cid now : Nat) (db2 : DB)
    (d : PrayedDetails) (n : Nat)
    (hsucc : markRepresentativeAsPrayed db cid now = (db2, some d, n))
    (c : Candidate) (hc : c ∈ db.rows) :
    ((c.id = cid ∧ c.status = Status.queued) →
        { c with status := Status.prayed, status_timestamp := now } ∈ db2.rows) ∧
    (¬(c.id = cid ∧ c.status = Status.queued) → c ∈ db2.rows) ∧
    (∀ e ∈ db2.rows, e ∈ db.rows ∨
        ∃ c0 ∈ db.rows, c0.id = cid ∧ c0.status = Status.queued ∧
          e = { c0 with status := Status.prayed, status_timestamp := now }) ∧
    db2.rows.length = db.rows.length := by
  have hdb2 : db2.rows = db.rows.map (markPrayedRowUpdate cid now) := by
    unfold markRepresentativeAsPrayed at hsucc
    cases hfind : db.rows.find? fun x => decide (x.id = cid ∧ x.status = Status.queued) with
    | none =>
      rw [hfind] at hsucc
      simp only [Prod.mk.injEq] at hsucc
      exact absurd hsucc.2.1 (by simp)
    | some item =>
      rw [hfind] at hsucc
      simp only at hsucc
      split at hsucc
      · simp only [Prod.mk.injEq] at hsucc
        rw [← hsucc.1]
        rfl
      · simp only [Prod.mk.injEq] at hsucc
        exact absurd hsucc.2.1 (by simp)
  rw [hdb2]
  refine ⟨?_, ?_, ?_, List.length_map _ _⟩
  · intro hcm
    have : markPrayedRowUpdate cid now c =
        { c with status := Status.prayed, status_timestamp := now } := by
      unfold markPrayedRowUpdate
      rw [if_pos hcm]
    rw [← this]
    exact List.mem_map_of_mem _ hc
  · intro hcm
    have : markPrayedRowUpdate cid now c = c := by
      unfold markPrayedRowUpdate
      rw [if_neg hcm]
    rw [← this]
    exact List.mem_map_of_mem _ hc
  · intro e he
    rcases List.mem_map.mp he with ⟨c0, hc0, hec⟩
    subst hec
    by_cases hcm : c0.id = cid ∧ c0.status = Status.queued
    · right
      refine ⟨c0, hc0, hcm.1, hcm.2, ?_⟩
      unfold markPrayedRowUpdate
      rw [if_pos hcm]
    · left
      have : markPrayedRowUpdate cid now c0 = c0 := by
        unfold markPrayedRowUpdate
        rw [if_neg hcm]
      rw [this]
      exact hc0

/-- C8 (amended): the put-back route preserves a candidate's held `hex_id`
only when the availability query yields nothing (no usable map data, a
non-random-allocation country, or no free cell); for a random-allocation
country it always queries for an available hex id and, whenever one is found,
overwrites the candidate's previous `hex_id` with it — the caller has no way
to request preservation. -/
theorem put_back_hex_semantics (R : RandSrc) (maps : HexMaps) (db : DB)
    (cid : Nat) (cc : String) (now : Nat) (hnd : NoDupIds db)
    (c : Candidate) (hc : c ∈ db.rows) (hcid : c.id = cid)
    (hcst : c.status = Status.prayed) :
    ∀ e ∈ (putBackHtmx R maps db cid cc now).1.rows, e.id = cid →
      e.hex_id = (match (if cc ∈ randomAllocationCountries then
                    getAvailableHexIdForCountry R maps db cc (some cid)
                  else none) with
                  | some h => some h
                  | none => c.hex_id) := by
  intro e he heid
  rw [putBackHtmx_eq] at he
  set nh := if cc ∈ randomAllocationCountries then
    getAvailableHexIdForCountry R maps db cc (some cid) else none with hnh
  unfold putRepresentativeBackInQueue at he
  cases hfind : db.rows.find? fun x => decide (x.id = cid ∧ x.status = Status.prayed) with
  | none =>
    rw [List.find?_eq_none] at hfind
    exact absurd (by simp [hcid, hcst] :
      (fun x => decide (x.id = cid ∧ x.status = Status.prayed)) c = true) (hfind c hc)
  | some item =>
    rw [hfind] at he
    simp only at he
    have hitem : item = c := by
      have hpred := List.find?_some hfind
      simp only [decide_eq_true_eq] at hpred
      exact rows_eq_of_id_eq hnd (List.mem_of_find?_eq_some hfind) hc
        (by rw [hpred.1, hcid])
    have hcount : 0 < db.rows.countP fun x => decide (x.id = cid ∧ x.status = Status.prayed) := by
      rw [List.countP_pos_iff]
      exact ⟨c, hc, by simp [hcid, hcst]⟩
    rw [if_pos hcount] at he
    simp only at he
    rcases List.mem_map.mp he with ⟨c0, hc0, hec⟩
    subst hec
    by_cases hcm : c0.id = cid ∧ c0.status = Status.prayed
    · rw [putBackRowUpdate_eq_pos hcm, hitem]
    · exfalso
      apply hcm
      rw [putBackRowUpdate_eq_neg hcm] at heid
      have : c0 = c := rows_eq_of_id_eq hnd hc0 hc (by rw [heid, hcid])
      rw [this]
      exact ⟨hcid, hcst⟩

/-- C2 (amended): after any run of `_seed_initial_prayer_queue` that actually
seeds — the run begins with an empty queued set, otherwise the pass returns
without touching the table — no candidate whose normalized natural key
matches a candidate prayed before the run has status `queued`: every roster
row whose key is in the `already_prayed` snapshot is discarded before
insertion. -/
theorem seeding_no_requeue_of_prayed (R : RandSrc) (maps : HexMaps)
    (countries : List CountrySpec) (db : DB) (now : Nat) (hR : GoodRand R)
    (h0 : queuedCount db = 0) :
    ∀ c ∈ (seedInitialPrayerQueue R maps countries db now).1.rows,
      c.status = Status.queued → candKey c ∉ prayedKeys db := by
  intro c hc hcq
  rw [seedInitialPrayerQueue_eq (by omega)] at hc
  obtain ⟨extra, hrows, hmem⟩ := insertItemsWith_rows mkSeedRow _ db now
  rw [hrows] at hc
  rcases List.mem_append.mp hc with h1 | h1
  · exfalso
    have h2 : db.rows.countP (fun x => decide (x.status = Status.queued)) = 0 := h0
    rw [List.countP_eq_zero] at h2
    exact absurd (by simp [hcq] :
      (fun x => decide (x.status = Status.queued)) c = true) (h2 c h1)
  · obtain ⟨_, p, hp, hcp⟩ := hmem c h1
    have hp1 := assignHexes_mem_fst hp
    have hp2 := (hR.1 _).mem_iff.mp hp1
    rcases List.mem_flatten.mp hp2 with ⟨sub, hsub, hpsub⟩
    rcases List.mem_map.mp hsub with ⟨cs, _, hsubeq⟩
    subst hsubeq
    by_cases hre : cs.roster.isEmpty
    · rw [if_pos hre] at hpsub
      cases hpsub
    · rw [if_neg hre] at hpsub
      have hspec := seedCollectCountry_spec hpsub
      have hkey : candKey c =
          candKey { mkSeedRow p.1 p.2 now with id := c.id } := congrArg candKey hcp
      rw [hkey]
      exact hspec.2

/-- C5: every run of `update_queue` first deletes all queued candidates and
then rebuilds the queued pool from the rosters: the resulting table is the
non-queued rows followed by freshly inserted queued rows carrying new
surrogate ids, and no previously queued row survives the run. -/
theorem reseed_full_replace (R : RandSrc) (maps : HexMaps)
    (countries : List CountrySpec) (db : DB) (now : Nat) (hbd : IdsBounded db) :
    ∃ ins, (updateQueueResult R maps countries db now).1.rows =
        (db.rows.filter fun c => decide (c.status ≠ Status.queued)) ++ ins ∧
      (∀ c ∈ ins, c.status = Status.queued ∧ db.nextId ≤ c.id) ∧
      ∀ c ∈ db.rows, c.status = Status.queued →
        c ∉ (updateQueueResult R maps countries db now).1.rows := by
  rw [updateQueueResult_eq]
  obtain ⟨extra, hrows, hmem⟩ := insertItemsWith_rows mkUpdateRow _ (deleteQueued db) now
  refine ⟨extra, hrows, ?_, ?_⟩
  · intro c hc
    obtain ⟨hid, p, _, hcp⟩ := hmem c hc
    exact ⟨congrArg Candidate.status hcp, hid⟩
  · intro c hc hcq hcontra
    rw [hrows] at hcontra
    rcases List.mem_append.mp hcontra with h1 | h1
    · have := (List.mem_filter.mp h1).2
      simp only [decide_eq_true_eq] at this
      exact this hcq
    · have hid := (hmem c h1).1
      have hnx : (deleteQueued db).nextId = db.nextId := rfl
      rw [hnx] at hid
      exact absurd hid (by have := hbd c hc; omega)

/-- C4 (amended): `update_queue` commits the deletion of the queued set as its
own transaction before any roster processing; the insert batch is committed
separately at the end (and only when at least one row was inserted); an
unexpected error during the pass rolls back only the uncommitted inserts, so
the state left visible by a failed pass is exactly the delete-only state,
which contains no queued rows. -/
theorem reseed_commit_structure (R : RandSrc) (maps : HexMaps)
    (countries : List CountrySpec) (db : DB) (now : Nat) :
    (updateQueueCommits R maps countries db now).head? = some (deleteQueued db) ∧
    updateQueueAfterErrorState db = deleteQueued db ∧
    queuedCount (deleteQueued db) = 0 ∧
    (0 < (updateQueueInsertPhase R maps countries (deleteQueued db) now).2 →
      updateQueueCommits R maps countries db now =
        [deleteQueued db, (updateQueueResult R maps countries db now).1]) := by
  refine ⟨?_, rfl, ?_, ?_⟩
  · show (if 0 < (updateQueueInsertPhase R maps countries (deleteQueued db) now).2
          then [deleteQueued db,
                (updateQueueInsertPhase R maps countries (deleteQueued db) now).1]
          else [deleteQueued db]).head? = some (deleteQueued db)
    by_cases hc : 0 < (updateQueueInsertPhase R maps countries (deleteQueued db) now).2
    · rw [if_pos hc]
      rfl
    · rw [if_neg hc]
      rfl
  · show (deleteQueued db).rows.countP (fun c => decide (c.status = Status.queued)) = 0
    rw [List.countP_eq_zero]
    intro c hc
    have := (List.mem_filter.mp hc).2
    simp only [decide_eq_true_eq] at this ⊢
    exact this
  · intro hpos
    show (if 0 < (updateQueueInsertPhase R maps countries (deleteQueued db) now).2
          then [deleteQueued db,
                (updateQueueInsertPhase R maps countries (deleteQueued db) now).1]
          else [deleteQueued db]) = _
    rw [if_pos hpos]
    rfl

/-- C9 (amended): when statement execution fails with a repository error, the
operations roll back any open transaction (the table is left as it was) and
convert the failure into the same benign values an ordinary no-op produces —
an empty list for `get_queued_representatives`, `(None, 0)` for
`mark_representative_as_prayed` — instead of letting the error propagate;
queued rows that do exist are silently absent from the error-path reply. -/
theorem repository_error_benign_returns (db : DB) (cid now : Nat)
    (e : RepositoryError) :
    getQueuedRepresentativesConn ⟨db, some e⟩ = [] ∧
    (markRepresentativeAsPrayedConn ⟨db, some e⟩ cid now).1 = db ∧
    (markRepresentativeAsPrayedConn ⟨db, some e⟩ cid now).2 = (none, 0) ∧
    ∀ c ∈ db.rows, c.status = Status.queued →
      c ∉ getQueuedRepresentativesConn ⟨db, some e⟩ := by
  refine ⟨rfl, rfl, rfl, ?_⟩
  intro c _ _
  show c ∉ ([] : List Candidate)
  exact List.not_mem_nil c

/-- C1 (amended): in every reachable database state, no two distinct rows
agree on `(person_name, post_label, country_code)` with a non-null
`post_label`; rows whose `post_label` is NULL are exempt, because the SQL
unique index treats NULLs as distinct and `INSERT OR IGNORE` therefore never
deduplicates them. -/
theorem unique_key_nonnull_of_reachable (db : DB) (hr : Reachable db) :
    UniqueNonNullKey db :=
  (dbInv_of_reachable hr).2.2.1

/-- C3: in every reachable database state, within one country no non-null
`hex_id` is held simultaneously by two distinct candidates whose status is
`queued` or `prayed`: the seeding pass pops each assigned hex from a local
availability list excluding all held hexes, and put-back only writes a hex
that the availability query (which excludes the candidate's own hold) reports
free. -/
theorem hex_exclusive_of_reachable (db : DB) (hr : Reachable db) :
    HexExclusive db :=
  (dbInv_of_reachable hr).2.2.2

/-- C1 (counterexample): seeding a fresh database from a roster that lists
"Alice" twice with no post label yields a reachable state holding two distinct
rows with the same normalized natural key — the unique index never fires for
NULL `post_label`s and the pass keeps no in-memory dedup set for queued
inserts. -/
theorem seeding_inserts_duplicate_null_label_key :
    Reachable dupSeededDB ∧
    ∃ c ∈ dupSeededDB.rows, ∃ d ∈ dupSeededDB.rows, c.id ≠ d.id ∧
      c.person_name = d.person_name ∧
      normLabel c.post_label = normLabel d.post_label ∧
      c.country_code = d.country_code := by
  constructor
  · exact Relation.ReflTransGen.single
      (Step.seed idRand [] dupCountries 0 dbEmpty goodRand_idRand)
  · decide

/-- C1 (witness): a reachable state with two rows for the same person under
distinct non-null post labels, on which the enforced uniqueness holds. -/
theorem unique_key_nonnull_witness :
    Reachable twoLabelDB ∧ UniqueNonNullKey twoLabelDB := by
  have hreach : Reachable twoLabelDB :=
    Relation.ReflTransGen.single
      (Step.seed idRand [] twoLabelCountries 0 dbEmpty goodRand_idRand)
  exact ⟨hreach, unique_key_nonnull_of_reachable twoLabelDB hreach⟩

/-- C2 (counterexample): after seeding the duplicate-Alice roster and marking
one of the two rows prayed, rerunning the seeding operation is skipped (a
queued row exists) and leaves a queued candidate whose normalized key equals
the key of a candidate prayed before the run. -/
theorem skip_path_leaves_queued_matching_prayed :
    Reachable dupPrayedDB ∧
    seedInitialPrayerQueue idRand [] dupCountries dupPrayedDB 9 = (dupPrayedDB, 0) ∧
    ∃ d ∈ dupPrayedDB.rows, d.status = Status.queued ∧
      candKey d ∈ prayedKeys dupPrayedDB := by
  refine ⟨?_, by decide, by decide⟩
  exact Relation.ReflTransGen.tail
    (Relation.ReflTransGen.single
      (Step.seed idRand [] dupCountries 0 dbEmpty goodRand_idRand))
    (Step.mark dupSeededDB 1 5)

/-- C2 (witness): seeding over a table holding prayed Alice, from a roster
listing Alice and Bob, inserts a queued Bob whose key is not in the prayed
snapshot. -/
theorem seeding_no_requeue_witness :
    candKey exBobSeeded ∉ prayedKeys exPrayedOnlyDB :=
  seeding_no_requeue_of_prayed idRand [] abCountries exPrayedOnlyDB 9
    goodRand_idRand (by decide) exBobSeeded (by decide) (by decide)

/-- C3 (witness): a reachable state with three seeded israel candidates over a
two-cell map: two candidates hold distinct hexes, the third holds NULL. -/
theorem hex_exclusive_witness :
    Reachable hexSeededDB ∧ HexExclusive hexSeededDB := by
  have hreach : Reachable hexSeededDB :=
    Relation.ReflTransGen.single
      (Step.seed idRand hexMapsEx hexCountries 0 dbEmpty goodRand_idRand)
  exact ⟨hreach, hex_exclusive_of_reachable hexSeededDB hreach⟩

/-- C4 (counterexample): running `update_queue` over a table with one queued
row produces two separate commits; the first committed state is the
delete-only state, which contains neither the old queued row nor the rows the
rest of the pass inserts — the pass is not one atomic transaction. -/
theorem reseed_commits_delete_separately :
    (updateQueueCommits idRand [] bobCountries exQueuedDB 9).length = 2 ∧
    (updateQueueCommits idRand [] bobCountries exQueuedDB 9).head? =
      some (deleteQueued exQueuedDB) ∧
    queuedCount exQueuedDB = 1 ∧
    queuedCount (deleteQueued exQueuedDB) = 0 ∧
    0 < queuedCount (updateQueueResult idRand [] bobCountries exQueuedDB 9).1 := by
  decide

/-- C4 (witness): the commit structure of `update_queue` at a concrete run
that inserts at least one row. -/
theorem reseed_commit_structure_witness :
    (updateQueueCommits idRand [] bobCountries exAliceDB 3).head? =
      some (deleteQueued exAliceDB) ∧
    updateQueueAfterErrorState exAliceDB = deleteQueued exAliceDB ∧
    queuedCount (deleteQueued exAliceDB) = 0 ∧
    (0 < (updateQueueInsertPhase idRand [] bobCountries (deleteQueued exAliceDB) 3).2 →
      updateQueueCommits idRand [] bobCountries exAliceDB 3 =
        [deleteQueued exAliceDB,
         (updateQueueResult idRand [] bobCountries exAliceDB 3).1]) :=
  reseed_commit_structure idRand [] bobCountries exAliceDB 3

/-- C5 (witness): full-replace semantics at a concrete run: the pre-existing
queued Bob row is deleted and a fresh Bob row with a new id is inserted. -/
theorem reseed_full_replace_witness :
    ∃ ins, (updateQueueResult idRand [] bobCountries exQueuedDB 9).1.rows =
        (exQueuedDB.rows.filter fun c => decide (c.status ≠ Status.queued)) ++ ins ∧
      (∀ c ∈ ins, c.status = Status.queued ∧ exQueuedDB.nextId ≤ c.id) ∧
      ∀ c ∈ exQueuedDB.rows, c.status = Status.queued →
        c ∉ (updateQueueResult idRand [] bobCountries exQueuedDB 9).1.rows :=
  reseed_full_replace idRand [] bobCountries exQueuedDB 9
    (by unfold IdsBounded; decide)

/-- C6 (witness): double MarkPrayed on the queued Alice row: success with a
snapshot and one affected row, then a structural no-op. -/
theorem mark_prayed_idempotent_witness :
    ((markRepresentativeAsPrayed exAliceDB 1 20).2.1 ≠ none ∧
      0 < (markRepresentativeAsPrayed exAliceDB 1 20).2.2) ∧
    markRepresentativeAsPrayed (markRepresentativeAsPrayed exAliceDB 1 20).1 1 30 =
      ((markRepresentativeAsPrayed exAliceDB 1 20).1, none, 0) :=
  mark_prayed_idempotent exAliceDB 1 20 30 (by decide)

/-- C7 (counterexample): the value returned for queued Alice is not the row as
it was read: its `status` field has been overwritten to `'prayed'`, while the
row was read with `status = 'queued'`. -/
theorem mark_prayed_snapshot_status_overwritten :
    (markRepresentativeAsPrayed exAliceDB 1 42).2.1 = some exAliceDetails ∧
    exAliceDetails.item.status = Status.prayed ∧
    exAliceRow.status = Status.queued ∧
    exAliceDetails.item.status ≠ exAliceRow.status := by
  decide

/-- C7 (witness): the amended return shape at the concrete Alice run. -/
theorem mark_prayed_return_shape_witness :
    ∃ c ∈ exAliceDB.rows, c.id = 1 ∧ c.status = Status.queued ∧
      exAliceDetails.item = { c with status := Status.prayed } ∧
      exAliceDetails.timestamp = 42 :=
  mark_prayed_return_shape exAliceDB 1 42 exAliceMarkedDB exAliceDetails 1 (by decide)

/-- C8 (counterexample): prayed Dana holds hex `"A"`; the put-back route, with
no reassignment requested by anyone, queries availability (map cell `"B"` is
free) and overwrites her hex with `"B"`. -/
theorem put_back_replaces_held_hex :
    exDanaRow.hex_id = some "A" ∧
    (putBackHtmx idRand mapsB exDanaDB 1 "israel" 7).1.rows =
      [⟨1, "Dana", none, "israel", some "Other", none, Status.queued, 7, 3,
        some "B"⟩] ∧
    ∀ e ∈ (putBackHtmx idRand mapsB exDanaDB 1 "israel" 7).1.rows,
      e.hex_id ≠ exDanaRow.hex_id := by
  decide

/-- C8 (witness): with no map data the availability query yields nothing and
the put-back route preserves Dana's held hex. -/
theorem put_back_hex_semantics_witness :
    exDanaBack.hex_id =
      (match (if "israel" ∈ randomAllocationCountries then
          getAvailableHexIdForCountry idRand [] exDanaDB "israel" (some 1)
        else none) with
        | some h => some h
        | none => exDanaRow.hex_id) :=
  put_back_hex_semantics idRand [] exDanaDB 1 "israel" 11
    (by unfold NoDupIds; decide) exDanaRow (by decide) rfl rfl exDanaBack
    (by decide) rfl

/-- C9 (counterexample): with queued rows present but the statements failing,
`get_queued_representatives` returns the ordinary empty list and
`mark_representative_as_prayed` returns the ordinary `(None, 0)` no-op with
the table rolled back — no error value or exception reaches the caller. -/
theorem repository_error_swallowed :
    queuedCount exAliceDB = 1 ∧
    getQueuedRepresentativesConn ⟨exAliceDB, some RepositoryError.connectionFailure⟩ = [] ∧
    markRepresentativeAsPrayedConn ⟨exAliceDB, some RepositoryError.transactionAbort⟩ 1 42 =
      (exAliceDB, none, 0) := by
  decide

/-- C9 (witness): the amended benign-return behaviour at a concrete failing
connection. -/
theorem repository_error_benign_returns_witness :
    getQueuedRepresentativesConn ⟨exDanaDB, some RepositoryError.connectionFailure⟩ = [] ∧
    (markRepresentativeAsPrayedConn ⟨exDanaDB, some RepositoryError.connectionFailure⟩ 1 7).1 = exDanaDB ∧
    (markRepresentativeAsPrayedConn ⟨exDanaDB, some RepositoryError.connectionFailure⟩ 1 7).2 = (none, 0) ∧
    ∀ c ∈ exDanaDB.rows, c.status = Status.queued →
      c ∉ getQueuedRepresentativesConn ⟨exDanaDB, some RepositoryError.connectionFailure⟩ :=
  repository_error_benign_returns exDanaDB 1 7 RepositoryError.connectionFailure

/-- C10 (witness): the frame property of the successful Alice transition. -/
theorem mark_prayed_frame_witness :
    ((exAliceRow.id = 1 ∧ exAliceRow.status = Status.queued) →
        { exAliceRow with status := Status.prayed, status_timestamp := 42 } ∈
          exAliceMarkedDB.rows) ∧
    (¬(exAliceRow.id = 1 ∧ exAliceRow.status = Status.queued) →
        exAliceRow ∈ exAliceMarkedDB.rows) ∧
    (∀ e ∈ exAliceMarkedDB.rows, e ∈ exAliceDB.rows ∨
        ∃ c0 ∈ exAliceDB.rows, c0.id = 1 ∧ c0.status = Status.queued ∧
          e = { c0 with status := Status.prayed, status_timestamp := 42 }) ∧
    exAliceMarkedDB.rows.length = exAliceDB.rows.length :=
  mark_prayed_frame exAliceDB 1 42 exAliceMarkedDB exAliceDetails 1 (by decide)
    exAliceRow (by decide)
